import Mathlib

/-!
Verification of shard's structural source-transformation engine.

The Rust sources are shallowly embedded: `syn` trees are modelled by the
inductive types below, restricted to exactly the constructors the engine
inspects (enums with unit or named-field variants, inherent impl blocks,
methods whose statement lists may contain a top-level `match`, match arms
with path / struct / ident patterns); everything else is carried as opaque
text, mirroring how the engine leaves unrecognized nodes untouched.
Fallible Rust code (`anyhow` errors and process-aborting panics alike)
is modelled with `Except Err`; the `Err` constructors record which of the
two failure kinds each one stands for.
-/

namespace Shard

/-- Sequential effectful map over `Except`, the evaluation order of
`iter().map(..).collect::<Result<..>>()` and of the loops that transform
every method of an impl block: the first failure aborts. -/
def mapExcept {ε α β : Type} (f : α → Except ε β) : List α → Except ε (List β)
  | [] => .ok []
  | a :: as => do
    let b ← f a
    let bs ← mapExcept f as
    .ok (b :: bs)

/-- Simplified model of identifier validity as enforced by
`proc_macro2::Ident::new` and `format_ident!` (ASCII fragment): nonempty,
first character alphabetic or underscore, remaining characters alphanumeric
or underscore.  Both constructors panic on anything else. -/
def isIdentChar (c : Char) : Bool := c.isAlphanum || c = '_'

/-- Validity of a whole identifier; `Ident::new` panics when this is false. -/
def isIdent (s : String) : Bool :=
  match s.toList with
  | [] => false
  | c :: cs => (c.isAlpha || c = '_') && cs.all isIdentChar

/-- Model of `crate::types::TransactionField` (src/types.rs). -/
structure TransactionField where
  name : String
  field_type : String
  deriving Repr, DecidableEq

/-- Model of `syn::Field` as built by `to_syn_field`: a named field whose
type is stored as the (already successfully parsed) type text. -/
structure SynField where
  name : String
  ty : String
  deriving Repr, DecidableEq

/-- Model of the `syn::Pat` constructors the engine inspects. -/
inductive Pat where
  /-- `Pat::Path`, e.g. `TransactionType::Noop`; the segments are the
  leading segments plus the final one, kept apart so the nonemptiness
  of a `syn` path is built in (`segments.last().unwrap()` never panics). -/
  | path (pre : List String) (last : String)
  /-- `Pat::Struct`, e.g. `TransactionType::JoinGame { game_id }`; the
  bindings are the field names bound by the pattern, in written order. -/
  | structPat (pre : List String) (last : String) (bindings : List String)
  /-- `Pat::Ident`: a bare binding pattern. -/
  | identPat (name : String)
  /-- any other pattern, preserved verbatim. -/
  | otherPat (code : String)
  deriving Repr, DecidableEq

/-- Model of a match-arm body; the engine only ever synthesizes the trivial
`Ok(())` body (in test.rs wrapped in a block with a TODO comment, a
distinction no transformation inspects). -/
inductive ArmBody where
  | okUnit
  | otherBody (code : String)
  deriving Repr, DecidableEq

/-- Model of `syn::Arm`. -/
structure MatchArm where
  pat : Pat
  body : ArmBody
  deriving Repr, DecidableEq

/-- Model of the scrutinee expression of a match: the engine only
distinguishes field-access expressions (`Expr::Field`, e.g. `self.tx_type`)
from everything else. -/
inductive Scrut where
  | fieldAccess (base : String) (member : String)
  | otherExpr (code : String)
  deriving Repr, DecidableEq

/-- Model of `syn::ExprMatch`. -/
structure MatchExpr where
  scrut : Scrut
  arms : List MatchArm
  deriving Repr, DecidableEq

/-- Model of `syn::Stmt`: either an expression statement holding a match
(`Stmt::Expr(Expr::Match(..), _)`) or any other statement kept verbatim. -/
inductive Stmt where
  | matchStmt (m : MatchExpr)
  | otherStmt (code : String)
  deriving Repr, DecidableEq

/-- Model of `syn::ImplItemFn`: a method with its statement list. -/
structure Method where
  ident : String
  stmts : List Stmt
  deriving Repr, DecidableEq

/-- Model of `syn::ImplItem`. -/
inductive ImplItem where
  | fn (m : Method)
  | otherImpl (code : String)
  deriving Repr, DecidableEq

/-- Model of `syn::Variant`: `fields = none` is a unit variant,
`fields = some fs` is a named-fields (`Fields::Named`) variant. -/
structure SynVariant where
  ident : String
  fields : Option (List SynField)
  deriving Repr, DecidableEq

/-- Model of `syn::Item`, restricted to the constructors the engine
matches on (`Item::Enum`, `Item::Impl`) plus opaque declarations. -/
inductive Item where
  | enumItem (ident : String) (variants : List SynVariant)
  | implItem (isTraitImpl : Bool) (items : List ImplItem)
  | otherTop (code : String)
  deriving Repr, DecidableEq

/-- Model of `syn::File`. -/
structure SynFile where
  items : List Item
  deriving Repr, DecidableEq

/-- Failure modes of the engine.  The first five model `anyhow` error
returns; the last three model process-aborting panics. -/
inductive Err where
  /-- `bail!("Project directory not found...")` -/
  | projectNotFound
  /-- a `?` on `fs::read_to_string` or `syn::parse_file` -/
  | readOrParse
  /-- "Couldn't find TransactionType enum" / "Could not find Transaction enum" -/
  | noEnum
  /-- "Could not find impl block" / "Could not find Transaction impl" -/
  | noImpl
  /-- "Could not find verify method" -/
  | noVerify
  /-- panic inside `parse_quote!` / `parse_str(..).unwrap()` -/
  | parseQuotePanic
  /-- panic inside `Ident::new` / `format_ident!` on an invalid identifier -/
  | identPanic
  /-- panic from out-of-bounds indexing (`method_fn.block.stmts[1]`) -/
  | indexPanic
  deriving Repr, DecidableEq

/-- Model of `parse_fields` (src/commands/create_tx.rs, lines 14-25):
`args.chunks(2)` paired into `TransactionField`s, a trailing odd token
getting the default type `"String"`.  The function is total: no input is
rejected. -/
def parse_fields : List String → List TransactionField
  | [] => []
  | [a] => [⟨a, "String"⟩]
  | a :: b :: rest => ⟨a, b⟩ :: parse_fields rest

/-- Model of `TransactionField::to_syn_field` (src/types.rs, lines 15-28),
parameterized by the type-text parser `pt` standing for
`syn::parse_str::<Type>` (an external crate): `Ident::new(&self.name)`
panics on an invalid name; a type text that fails to parse is silently
replaced by the result of `parse_str("String")`, whose own `unwrap`
panics only if even `"String"` fails to parse. -/
def to_syn_field (pt : String → Option String) (f : TransactionField) :
    Except Err SynField :=
  if isIdent f.name then
    match pt f.field_type with
    | some t => .ok ⟨f.name, t⟩
    | none =>
      match pt "String" with
      | some t => .ok ⟨f.name, t⟩
      | none => .error .parseQuotePanic
  else .error .identPanic

/-- Model of the `new_variant` construction in `modify_tx_file`
(src/commands/create_tx.rs, lines 64-83).  In the empty-fields branch the
Rust code is `parse_quote! { #tx_name }` with `tx_name : &str`: `quote`
interpolates a `&str` as a string literal, which `syn` cannot parse as a
`Variant` (an identifier is required), so `parse_quote!` panics.  In the
nonempty branch the fields are converted by `to_syn_field` first and then
`Ident::new(tx_name)` is called. -/
def build_variant (pt : String → Option String) (tx_name : String)
    (fields : List TransactionField) : Except Err SynVariant :=
  if fields.isEmpty then
    .error .parseQuotePanic
  else do
    let sfs ← mapExcept (to_syn_field pt) fields
    if isIdent tx_name then .ok ⟨tx_name, some sfs⟩ else .error .identPanic

/-- Model of the synthesized dispatch arm (create_tx.rs lines 120-132 and
192-205, test.rs lines 139-154 with `head := "Self"`): a unit pattern for an
empty field list, otherwise a struct pattern binding every field name in
caller order, body always `Ok(())`.  `Ident::new` panics on invalid
identifiers. -/
def mk_arm (head : String) (tx_name : String) (fields : List TransactionField) :
    Except Err MatchArm :=
  if !isIdent tx_name then .error .identPanic
  else if fields.isEmpty then .ok ⟨.path [head] tx_name, .okUnit⟩
  else if fields.all (fun f => isIdent f.name) then
    .ok ⟨.structPat [head] tx_name (fields.map (·.name)), .okUnit⟩
  else .error .identPanic

/-- The `retain` predicate used at create_tx.rs lines 134-141 and 183-190:
an arm is dropped exactly when its pattern is a `Pat::Path` whose last
segment is `Noop`; all other patterns are kept. -/
def isNoopPathArm (a : MatchArm) : Bool :=
  match a.pat with
  | .path _ last => last == "Noop"
  | _ => false

/-- The structural scrutinee check of `modify_tx_file` (lines 117-119): the
statement's match scrutinee must be a field access whose member is
`tx_type`; the base expression is not inspected. -/
def scrutIsTxType (m : MatchExpr) : Bool :=
  match m.scrut with
  | .fieldAccess _ member => member == "tx_type"
  | _ => false

/-- Transformation applied to the first matching enum declaration found by
`ast.items.iter_mut().find_map(..)`; absence is the corresponding `anyhow`
error. -/
def mapFirstEnum (name : String) (errNone : Err)
    (f : List SynVariant → Except Err (List SynVariant)) :
    List Item → Except Err (List Item)
  | [] => .error errNone
  | .enumItem n vs :: rest =>
    if n == name then do
      let vs' ← f vs
      .ok (.enumItem n vs' :: rest)
    else do
      let rest' ← mapFirstEnum name errNone f rest
      .ok (.enumItem n vs :: rest')
  | it :: rest => do
    let rest' ← mapFirstEnum name errNone f rest
    .ok (it :: rest')

/-- Transformation applied to the first impl block accepted by `sel`
(create_tx.rs accepts any impl; test.rs requires `trait_.is_none()`). -/
def mapFirstImpl (errNone : Err) (sel : Bool → Bool)
    (f : List ImplItem → Except Err (List ImplItem)) :
    List Item → Except Err (List Item)
  | [] => .error errNone
  | .implItem tr its :: rest =>
    if sel tr then do
      let its' ← f its
      .ok (.implItem tr its' :: rest)
    else do
      let rest' ← mapFirstImpl errNone sel f rest
      .ok (.implItem tr its :: rest')
  | it :: rest => do
    let rest' ← mapFirstImpl errNone sel f rest
    .ok (it :: rest')

/-- Transformation applied to the statements of the first method with the
given name inside an impl block (`find_map` over `impl_block.items`). -/
def mapFirstMethod (nm : String) (errNone : Err)
    (f : List Stmt → Except Err (List Stmt)) :
    List ImplItem → Except Err (List ImplItem)
  | [] => .error errNone
  | .fn m :: rest =>
    if m.ident == nm then do
      let s' ← f m.stmts
      .ok (.fn ⟨m.ident, s'⟩ :: rest)
    else do
      let rest' ← mapFirstMethod nm errNone f rest
      .ok (.fn m :: rest')
  | it :: rest => do
    let rest' ← mapFirstMethod nm errNone f rest
    .ok (it :: rest')

/-- Model of the statement loop of `modify_tx_file` (lines 116-148): scan
the statements in order; at the first match statement whose scrutinee is a
`tx_type` field access, build the new arm (`Ident::new` may panic), drop
the `Noop` path arms, push the new arm at the END of the arm list, and
`break`.  If no statement qualifies the loop falls through silently: no
error is raised. -/
def update_verify_stmts (tx_name : String) (fields : List TransactionField) :
    List Stmt → Except Err (List Stmt)
  | [] => .ok []
  | .matchStmt m :: rest =>
    if scrutIsTxType m then do
      let arm ← mk_arm "TransactionType" tx_name fields
      .ok (.matchStmt ⟨m.scrut, m.arms.filter (fun a => !(isNoopPathArm a)) ++ [arm]⟩ :: rest)
    else do
      let rest' ← update_verify_stmts tx_name fields rest
      .ok (.matchStmt m :: rest')
  | s :: rest => do
    let rest' ← update_verify_stmts tx_name fields rest
    .ok (s :: rest')

/-- Model of `modify_tx_file` (src/commands/create_tx.rs, lines 50-151),
acting on the parsed tree of src/tx.rs: find the `TransactionType` enum
(error if absent), push the new variant and then remove every `Noop`
variant, find the first impl block (error if absent), find its first
`verify` method (error if absent), and update that method's statements.
The function returns the tree to be printed; the caller does the write. -/
def modify_tx_file (pt : String → Option String) (tx_name : String)
    (fields : List TransactionField) (f : SynFile) : Except Err SynFile := do
  let items1 ← mapFirstEnum "TransactionType" .noEnum
    (fun vs => do
      let nv ← build_variant pt tx_name fields
      .ok ((vs ++ [nv]).filter (fun v => v.ident != "Noop")))
    f.items
  let items2 ← mapFirstImpl .noImpl (fun _ => true)
    (mapFirstMethod "verify" .noVerify (update_verify_stmts tx_name fields))
    items1
  .ok ⟨items2⟩

/-- Model of the variant count read from the on-disk src/tx.rs in
`modify_state_file` (lines 165-175): the length of the first
`TransactionType` enum's variant list, or 0 when the enum is absent
(`unwrap_or(0)`). -/
def variantCountOnDisk (txDisk : SynFile) : Nat :=
  (txDisk.items.findSome? (fun it =>
    match it with
    | .enumItem n vs => if n == "TransactionType" then some vs.length else none
    | _ => none)).getD 0

/-- Model of one iteration of the method loop of `modify_state_file`
(lines 177-212).  For a method named `validate_tx` or `process_tx` the code
indexes `method_fn.block.stmts[1]` UNCONDITIONALLY, which panics when the
body has fewer than two statements.  When that statement is a match (the
scrutinee is NOT checked), `Noop` path arms are dropped if the on-disk
variant count is at least 1, the new arm is built, the scrutinee is
overwritten with `tx.tx_type`, and the arm is inserted at index 0.  A
second statement that is not a match is silently skipped. -/
def process_state_method (tx_name : String) (fields : List TransactionField)
    (cnt : Nat) (m : Method) : Except Err Method :=
  if m.ident == "validate_tx" || m.ident == "process_tx" then
    match m.stmts.get? 1 with
    | none => .error .indexPanic
    | some (.matchStmt me) => do
      let arms1 := if cnt ≥ 1 then me.arms.filter (fun a => !(isNoopPathArm a)) else me.arms
      let arm ← mk_arm "TransactionType" tx_name fields
      .ok ⟨m.ident, m.stmts.set 1 (.matchStmt ⟨.fieldAccess "tx" "tx_type", arm :: arms1⟩)⟩
    | some _ => .ok m
  else .ok m

/-- Model of `modify_state_file` (src/commands/create_tx.rs, lines
153-215), acting on the parsed tree of src/state.rs together with the
parsed tree of the ON-DISK src/tx.rs (`txDisk = none` models a failing
read or parse): find the first impl block (error if absent), read the
on-disk variant count, and process every method of that impl block. -/
def modify_state_file (tx_name : String) (fields : List TransactionField)
    (stateF : SynFile) (txDisk : Option SynFile) : Except Err SynFile := do
  let items' ← mapFirstImpl .noImpl (fun _ => true)
    (fun its => do
      let txAst ← match txDisk with
        | some t => Except.ok t
        | none => Except.error Err.readOrParse
      let cnt := variantCountOnDisk txAst
      mapExcept (fun ii =>
        match ii with
        | .fn m => do
          let m' ← process_state_method tx_name fields cnt m
          Except.ok (ImplItem.fn m')
        | other => Except.ok other) its)
    stateF.items
  .ok ⟨items'⟩

/-- Model of the project directory as seen by `create_transaction`:
existence of the directory plus the two target files, each stored as its
parsed tree (`none` models a missing or unparsable file, both of which
fail the corresponding `?`). -/
structure Fs where
  projectExists : Bool
  txFile : Option SynFile
  stateFile : Option SynFile
  deriving Repr, DecidableEq

/-- Model of `create_transaction` (src/commands/create_tx.rs, lines 27-48):
check the directory, produce BOTH output trees (modify_state_file re-reads
the on-disk, pre-modification tx tree), and only then store both.  On any
failure the pair carries the untouched file system together with the
error. -/
def create_transaction (pt : String → Option String) (tx_name : String)
    (fields : List TransactionField) (fs : Fs) : Fs × Option Err :=
  if !fs.projectExists then (fs, some .projectNotFound)
  else
    match fs.txFile with
    | none => (fs, some .readOrParse)
    | some txAst =>
      match modify_tx_file pt tx_name fields txAst with
      | .error e => (fs, some e)
      | .ok txAst' =>
        match fs.stateFile with
        | none => (fs, some .readOrParse)
        | some stAst =>
          match modify_state_file tx_name fields stAst fs.txFile with
          | .error e => (fs, some e)
          | .ok stAst' =>
            ({ fs with txFile := some txAst', stateFile := some stAst' }, none)

/-- Model of the variant construction in `add_transaction_variant`
(src/commands/test.rs, lines 66-87): `format_ident!` panics on an invalid
transaction name; an empty field list yields a unit variant (here the
interpolation uses a proper `Ident`, so no panic occurs, unlike
create_tx.rs); a nonempty list yields named fields whose TYPES are also
built with `format_ident!` and must therefore be plain identifiers. -/
def test_build_variant (tx_name : String) (fields : List (String × String)) :
    Except Err SynVariant :=
  if !isIdent tx_name then .error .identPanic
  else if fields.isEmpty then .ok ⟨tx_name, none⟩
  else if fields.all (fun p => isIdent p.1 && isIdent p.2) then
    .ok ⟨tx_name, some (fields.map (fun p => ⟨p.1, p.2⟩))⟩
  else .error .identPanic

/-- Model of the verify-method loop of `add_transaction_variant`
(src/commands/test.rs, lines 116-169): for every method named `verify`, if
the FIRST statement is a match (the scrutinee is not checked), build the
`Self::name` arm, and insert it at index 0 unless some existing arm is a
bare `Pat::Ident` equal to the name (variant arms are path or struct
patterns, so this duplicate check never fires for them). -/
def test_process_verify (tx_name : String) (fields : List TransactionField)
    (m : Method) : Except Err Method :=
  if m.ident == "verify" then
    match m.stmts with
    | .matchStmt me :: rest => do
      let arm ← mk_arm "Self" tx_name fields
      if me.arms.any (fun a =>
          match a.pat with
          | .identPat n => n == tx_name
          | _ => false) then
        .ok m
      else .ok ⟨m.ident, .matchStmt ⟨me.scrut, arm :: me.arms⟩ :: rest⟩
    | _ => .ok m
  else .ok m

/-- Model of `add_transaction_variant` (src/commands/test.rs, lines
44-172): find the `Transaction` enum (error if absent), build the variant
(panics surface even for a duplicate name, since the construction precedes
the check), push it ONLY if no variant with that name exists yet — the
duplicate is skipped silently, no error is raised — then find the first
inherent impl block and update every `verify` method in it. -/
def add_transaction_variant (tx_name : String) (fields : List (String × String))
    (ast : SynFile) : Except Err SynFile := do
  let items1 ← mapFirstEnum "Transaction" .noEnum
    (fun vs => do
      let v ← test_build_variant tx_name fields
      .ok (if vs.any (fun w => w.ident == tx_name) then vs else vs ++ [v]))
    ast.items
  let items2 ← mapFirstImpl .noImpl (fun tr => !tr)
    (fun its => mapExcept (fun ii =>
      match ii with
      | .fn m => do
        let m' ← test_process_verify tx_name
          (fields.map (fun p => ⟨p.1, p.2⟩)) m
        Except.ok (ImplItem.fn m')
      | other => Except.ok other) its)
    items1
  .ok ⟨items2⟩

/-! ### Observation helpers

These functions only read the trees; they are the measuring instruments
the theorems are phrased with, not part of the embedded program. -/

/-- The variant list of the first enum with the given name, if any. -/
def getEnumVariants (f : SynFile) (name : String) : Option (List SynVariant) :=
  f.items.findSome? (fun it =>
    match it with
    | .enumItem n vs => if n == name then some vs else none
    | _ => none)

/-- The variant names of the first `TransactionType` enum. -/
def enumNamesOf (f : SynFile) : List String :=
  ((getEnumVariants f "TransactionType").getD []).map (·.ident)

/-- The variant name referenced by a pattern: the last path segment for
path and struct patterns.  A bare ident pattern is a catch-all binding and
an opaque pattern is unknown, so neither covers a specific variant. -/
def patName : Pat → Option String
  | .path _ last => some last
  | .structPat _ last _ => some last
  | .identPat _ => none
  | .otherPat _ => none

/-- The variant names covered by a list of arms. -/
def armNames (arms : List MatchArm) : List String :=
  arms.filterMap (fun a => patName a.pat)

/-- The items of the first impl block of a file. -/
def firstImplItems (f : SynFile) : List ImplItem :=
  (f.items.findSome? (fun it =>
    match it with
    | .implItem _ its => some its
    | _ => none)).getD []

/-- The statement list of the first method with the given name in the
first impl block. -/
def methodStmts (f : SynFile) (nm : String) : List Stmt :=
  ((firstImplItems f).findSome? (fun ii =>
    match ii with
    | .fn m => if m.ident == nm then some m.stmts else none
    | _ => none)).getD []

/-- The arms of the first match statement over `tx_type` inside the
`verify` method of the first impl block. -/
def verifyMatchArms (f : SynFile) : List MatchArm :=
  ((methodStmts f "verify").findSome? (fun s =>
    match s with
    | .matchStmt m => if scrutIsTxType m then some m.arms else none
    | _ => none)).getD []

/-- The arms of the match sitting at statement index 1 of the named method
of the first impl block (the position `modify_state_file` operates on). -/
def stateMethodArms (f : SynFile) (nm : String) : List MatchArm :=
  match (methodStmts f nm).get? 1 with
  | some (.matchStmt m) => m.arms
  | _ => []

/-- A concrete stand-in for `syn::parse_str::<Type>` used by closed
witnesses and counterexamples: it accepts exactly the plain-identifier
type texts.  The general theorems quantify over the type parser. -/
def identTypeParser : String → Option String :=
  fun s => if isIdent s then some s else none

/-! ### Initializer-shaped projects

The project initializer guarantees a fixed skeleton for the two files;
these constructors quantify over everything the skeleton leaves open. -/

/-- A tx.rs tree: one opaque leading declaration, the `TransactionType`
enum, and one impl block whose first method is `verify`. -/
def txProject (u : String) (vs : List SynVariant) (vstmts : List Stmt) : SynFile :=
  ⟨[.otherTop u, .enumItem "TransactionType" vs,
    .implItem false [.fn ⟨"verify", vstmts⟩]]⟩

/-- A state.rs tree: one opaque leading declaration and one impl block
holding `validate_tx` and `process_tx`. -/
def stateProject (u : String) (mvStmts mpStmts : List Stmt) : SynFile :=
  ⟨[.otherTop u, .implItem false
    [.fn ⟨"validate_tx", mvStmts⟩, .fn ⟨"process_tx", mpStmts⟩]]⟩

/-! ### Computation lemmas

Shared facts that evaluate the embedded functions on initializer-shaped
inputs; the claim theorems are proved from these. -/

/-- Recognizer for the statements `update_verify_stmts` acts on. -/
def isTxMatchStmt : Stmt → Bool
  | .matchStmt m => scrutIsTxType m
  | _ => false

theorem to_syn_field_ok (pt : String → Option String) (f : TransactionField)
    (sTy : String) (hf : isIdent f.name = true) (hS : pt "String" = some sTy) :
    to_syn_field pt f = .ok ⟨f.name, (pt f.field_type).getD sTy⟩ := by
  simp only [to_syn_field, hf, if_true]
  cases h : pt f.field_type <;> simp [h, hS]

theorem mapExcept_to_syn_field_ok (pt : String → Option String)
    (fields : List TransactionField) (sTy : String)
    (hf : fields.all (fun f => isIdent f.name) = true)
    (hS : pt "String" = some sTy) :
    mapExcept (to_syn_field pt) fields =
      .ok (fields.map (fun f => ⟨f.name, (pt f.field_type).getD sTy⟩)) := by
  induction fields with
  | nil => rfl
  | cons f fs ih =>
    simp only [List.all_cons, Bool.and_eq_true] at hf
    simp [mapExcept, to_syn_field_ok pt f sTy hf.1 hS, ih hf.2,
      bind, Except.bind]

theorem build_variant_ok (pt : String → Option String) (n : String)
    (fields : List TransactionField) (sTy : String)
    (hfne : fields ≠ []) (hn : isIdent n = true)
    (hf : fields.all (fun f => isIdent f.name) = true)
    (hS : pt "String" = some sTy) :
    build_variant pt n fields =
      .ok ⟨n, some (fields.map (fun f => ⟨f.name, (pt f.field_type).getD sTy⟩))⟩ := by
  simp [build_variant, List.isEmpty_iff, hfne,
    mapExcept_to_syn_field_ok pt fields sTy hf hS, hn, bind, Except.bind]

theorem mk_arm_ok (head n : String) (fields : List TransactionField)
    (hn : isIdent n = true) (hfne : fields ≠ [])
    (hf : fields.all (fun f => isIdent f.name) = true) :
    mk_arm head n fields =
      .ok ⟨.structPat [head] n (fields.map (·.name)), .okUnit⟩ := by
  simp [mk_arm, hn, List.isEmpty_iff, hfne, hf]

theorem update_verify_stmts_found (n : String) (fields : List TransactionField)
    (m : MatchExpr) (rest : List Stmt) (h : scrutIsTxType m = true) :
    update_verify_stmts n fields (.matchStmt m :: rest) =
      (mk_arm "TransactionType" n fields).map (fun arm =>
        .matchStmt ⟨m.scrut, m.arms.filter (fun a => !(isNoopPathArm a)) ++ [arm]⟩ :: rest) := by
  simp only [update_verify_stmts, h, if_true]
  cases mk_arm "TransactionType" n fields <;> simp [bind, Except.bind, Except.map]

theorem update_verify_stmts_append (n : String) (fields : List TransactionField)
    (spre rest : List Stmt) (h : spre.all (fun s => !(isTxMatchStmt s)) = true) :
    update_verify_stmts n fields (spre ++ rest) =
      (update_verify_stmts n fields rest).map (fun r => spre ++ r) := by
  induction spre with
  | nil =>
    cases h' : update_verify_stmts n fields rest <;>
      simp [List.nil_append, Except.map, h']
  | cons s ss ih =>
    simp only [List.all_cons, Bool.and_eq_true] at h
    have hs := h.1
    cases s with
    | matchStmt m =>
      have hm : scrutIsTxType m = false := by
        simpa [isTxMatchStmt] using hs
      simp only [List.cons_append, update_verify_stmts, hm, Bool.false_eq_true,
        if_false, List.append_eq]
      rw [ih h.2]
      cases h' : update_verify_stmts n fields rest <;>
        simp [Except.map, bind, Except.bind, h']
    | otherStmt c =>
      simp only [List.cons_append, update_verify_stmts, List.append_eq]
      rw [ih h.2]
      cases h' : update_verify_stmts n fields rest <;>
        simp [Except.map, bind, Except.bind, h']

theorem update_verify_stmts_noMatch (n : String) (fields : List TransactionField)
    (st : List Stmt) (h : st.all (fun s => !(isTxMatchStmt s)) = true) :
    update_verify_stmts n fields st = .ok st := by
  have := update_verify_stmts_append n fields st [] h
  simpa [update_verify_stmts, Except.map] using this

theorem modify_tx_file_txProject (pt : String → Option String) (n : String)
    (fields : List TransactionField) (u : String) (vs : List SynVariant)
    (vst : List Stmt) :
    modify_tx_file pt n fields (txProject u vs vst) =
      match build_variant pt n fields with
      | .error e => .error e
      | .ok nv =>
        match update_verify_stmts n fields vst with
        | .error e => .error e
        | .ok vst' =>
          .ok (txProject u ((vs ++ [nv]).filter (fun v => v.ident != "Noop")) vst') := by
  cases hb : build_variant pt n fields with
  | error e =>
    simp [modify_tx_file, txProject, mapFirstEnum, hb, bind, Except.bind]
  | ok nv =>
    cases hu : update_verify_stmts n fields vst with
    | error e =>
      simp [modify_tx_file, txProject, mapFirstEnum, mapFirstImpl, mapFirstMethod,
        hb, hu, bind, Except.bind]
    | ok vst' =>
      simp [modify_tx_file, txProject, mapFirstEnum, mapFirstImpl, mapFirstMethod,
        hb, hu, bind, Except.bind]

theorem process_state_method_shape (n : String) (fields : List TransactionField)
    (cnt : Nat) (nm : String) (s0 : Stmt) (me : MatchExpr) (rest : List Stmt)
    (h : (nm == "validate_tx" || nm == "process_tx") = true) :
    process_state_method n fields cnt ⟨nm, s0 :: .matchStmt me :: rest⟩ =
      (mk_arm "TransactionType" n fields).map (fun arm =>
        ⟨nm, s0 :: .matchStmt ⟨.fieldAccess "tx" "tx_type",
          arm :: (if cnt ≥ 1 then me.arms.filter (fun a => !(isNoopPathArm a))
                  else me.arms)⟩ :: rest⟩) := by
  simp only [process_state_method, h, if_true, List.get?]
  cases mk_arm "TransactionType" n fields <;>
    simp [Except.map, bind, Except.bind, List.set]

theorem process_state_method_short (n : String) (fields : List TransactionField)
    (cnt : Nat) (nm : String) (st : List Stmt)
    (h : (nm == "validate_tx" || nm == "process_tx") = true)
    (hlen : st.length ≤ 1) :
    process_state_method n fields cnt ⟨nm, st⟩ = .error .indexPanic := by
  have hnone : st[1]? = none := List.getElem?_eq_none (by omega)
  simp [process_state_method, h, hnone]

theorem process_state_method_notMatch (n : String) (fields : List TransactionField)
    (cnt : Nat) (nm : String) (s0 : Stmt) (c : String) (rest : List Stmt) :
    process_state_method n fields cnt ⟨nm, s0 :: .otherStmt c :: rest⟩ =
      .ok ⟨nm, s0 :: .otherStmt c :: rest⟩ := by
  by_cases h : (nm == "validate_tx" || nm == "process_tx") = true
  · simp [process_state_method, h, List.get?]
  · simp [process_state_method, h]

theorem modify_state_file_stateProject (n : String) (fields : List TransactionField)
    (u : String) (mv mp : List Stmt) (txd : SynFile) :
    modify_state_file n fields (stateProject u mv mp) (some txd) =
      match process_state_method n fields (variantCountOnDisk txd) ⟨"validate_tx", mv⟩ with
      | .error e => .error e
      | .ok m1 =>
        match process_state_method n fields (variantCountOnDisk txd) ⟨"process_tx", mp⟩ with
        | .error e => .error e
        | .ok m2 => .ok ⟨[.otherTop u, .implItem false [.fn m1, .fn m2]]⟩ := by
  cases h1 : process_state_method n fields (variantCountOnDisk txd) ⟨"validate_tx", mv⟩ with
  | error e =>
    simp [modify_state_file, stateProject, mapFirstImpl, bind, Except.bind,
      mapExcept, h1]
  | ok m1 =>
    cases h2 : process_state_method n fields (variantCountOnDisk txd) ⟨"process_tx", mp⟩ with
    | error e =>
      simp [modify_state_file, stateProject, mapFirstImpl, bind, Except.bind,
        mapExcept, h1, h2]
    | ok m2 =>
      simp [modify_state_file, stateProject, mapFirstImpl, bind, Except.bind,
        mapExcept, h1, h2]

theorem variantCountOnDisk_txProject (u : String) (vs : List SynVariant)
    (vst : List Stmt) : variantCountOnDisk (txProject u vs vst) = vs.length := by
  simp [variantCountOnDisk, txProject, List.findSome?]

theorem patName_of_isNoopPathArm (a : MatchArm) (h : isNoopPathArm a = true) :
    patName a.pat = some "Noop" := by
  rcases a with ⟨p, b⟩
  cases p <;> simp [isNoopPathArm] at h <;> simp [patName, h]

theorem mem_armNames_iff (arms : List MatchArm) (x : String) :
    x ∈ armNames arms ↔ ∃ a ∈ arms, patName a.pat = some x := by
  simp [armNames, List.mem_filterMap]

theorem mem_armNames_filterNoop (arms : List MatchArm) (x : String)
    (hN : ∀ a ∈ arms, patName a.pat = some "Noop" → isNoopPathArm a = true) :
    x ∈ armNames (arms.filter (fun a => !(isNoopPathArm a))) ↔
      (x ∈ armNames arms ∧ x ≠ "Noop") := by
  simp only [mem_armNames_iff, List.mem_filter, Bool.not_eq_true']
  constructor
  · rintro ⟨a, ⟨ha, hk⟩, hx⟩
    refine ⟨⟨a, ha, hx⟩, ?_⟩
    rintro rfl
    rw [hN a ha hx] at hk
    exact absurd hk (by simp)
  · rintro ⟨⟨a, ha, hx⟩, hne⟩
    refine ⟨a, ⟨ha, ?_⟩, hx⟩
    by_contra hk
    have hk' : isNoopPathArm a = true := by
      cases hisb : isNoopPathArm a
      · exact absurd hisb hk
      · rfl
    have := patName_of_isNoopPathArm a hk'
    rw [hx] at this
    exact hne (by injection this)

theorem armNames_append (l1 l2 : List MatchArm) :
    armNames (l1 ++ l2) = armNames l1 ++ armNames l2 := by
  simp [armNames, List.filterMap_append]

theorem mem_filteredVariantNames (vs : List SynVariant) (x : String) :
    x ∈ ((vs.filter (fun v => v.ident != "Noop")).map (·.ident)) ↔
      (x ∈ vs.map (·.ident) ∧ x ≠ "Noop") := by
  simp only [List.mem_map, List.mem_filter, bne_iff_ne, ne_eq]
  constructor
  · rintro ⟨v, ⟨hv, hne⟩, rfl⟩
    exact ⟨⟨v, hv, rfl⟩, hne⟩
  · rintro ⟨⟨v, hv, rfl⟩, hne⟩
    exact ⟨v, ⟨hv, hne⟩, rfl⟩

theorem enumNamesOf_txProject (u : String) (vs : List SynVariant)
    (vst : List Stmt) : enumNamesOf (txProject u vs vst) = vs.map (·.ident) := by
  simp [enumNamesOf, getEnumVariants, txProject, List.findSome?]

theorem methodStmts_txProject (u : String) (vs : List SynVariant)
    (vst : List Stmt) : methodStmts (txProject u vs vst) "verify" = vst := by
  simp [methodStmts, firstImplItems, txProject, List.findSome?]

theorem findSome?_matchArms_append (spre rest : List Stmt)
    (h : spre.all (fun s => !(isTxMatchStmt s)) = true) :
    ((spre ++ rest).findSome? (fun s =>
      match s with
      | .matchStmt m => if scrutIsTxType m then some m.arms else none
      | _ => none)) =
    (rest.findSome? (fun s =>
      match s with
      | .matchStmt m => if scrutIsTxType m then some m.arms else none
      | _ => none)) := by
  induction spre with
  | nil => simp
  | cons s ss ih =>
    simp only [List.all_cons, Bool.and_eq_true] at h
    cases s with
    | matchStmt m =>
      have hm : scrutIsTxType m = false := by
        simpa [isTxMatchStmt] using h.1
      simp [List.findSome?, hm, ih h.2]
    | otherStmt c =>
      simp [List.findSome?, ih h.2]

theorem verifyMatchArms_txProject (u : String) (vs : List SynVariant)
    (spre : List Stmt) (m : MatchExpr) (srest : List Stmt)
    (h : spre.all (fun s => !(isTxMatchStmt s)) = true)
    (hm : scrutIsTxType m = true) :
    verifyMatchArms (txProject u vs (spre ++ .matchStmt m :: srest)) = m.arms := by
  simp [verifyMatchArms, methodStmts_txProject,
    findSome?_matchArms_append spre (Stmt.matchStmt m :: srest) h,
    List.findSome?, hm]

theorem methodStmts_pair_fst (u : String) (m1 m2 : Method) (nm : String)
    (h1 : (m1.ident == nm) = true) :
    methodStmts ⟨[.otherTop u, .implItem false [.fn m1, .fn m2]]⟩ nm = m1.stmts := by
  simp [methodStmts, firstImplItems, List.findSome?, h1]

theorem methodStmts_pair_snd (u : String) (m1 m2 : Method) (nm : String)
    (h1 : (m1.ident == nm) = false) (h2 : (m2.ident == nm) = true) :
    methodStmts ⟨[.otherTop u, .implItem false [.fn m1, .fn m2]]⟩ nm = m2.stmts := by
  simp [methodStmts, firstImplItems, List.findSome?, h1, h2]

theorem stateMethodArms_of_stmts (f : SynFile) (nm : String) (s0 : Stmt)
    (me : MatchExpr) (rest : List Stmt)
    (h : methodStmts f nm = s0 :: .matchStmt me :: rest) :
    stateMethodArms f nm = me.arms := by
  simp [stateMethodArms, h, List.get?]

namespace PP

/-!
Modelled from the spec: the Structural Parser/Printer component (section
4.1).  Its implementation lives in the external crates `syn`
(`parse_file`) and `prettyplease` (`unparse`), not in this repository, so
the component is modelled from the spec's words: `parse` turns text into a
tree of declarations, unrecognized declarations are preserved as opaque
verbatim payloads, and `print` re-emits canonical text.  Text is modelled
at the token level (canonical printing makes whitespace a function of the
token sequence).  The dialect covers the type-declaration sublanguage the
engine transforms — enums with unit or named-field variants — plus opaque
declarations; the parser is more lenient than the printer in exactly one
place (a missing trailing comma after the last variant or field is
accepted, while the printer always emits one), so printing genuinely
canonicalizes and idempotence is not a tautology.
-/

/-- Tokens of the modelled source text. -/
inductive Tok where
  | kwEnum
  | lbrace
  | rbrace
  | comma
  | colon
  | id (s : String)
  deriving Repr, DecidableEq

/-- A named field of a variant. -/
structure PField where
  name : String
  ty : String
  deriving Repr, DecidableEq

/-- A variant: unit (`fields = none`) or named-fields. -/
structure PVariant where
  name : String
  fields : Option (List PField)
  deriving Repr, DecidableEq

/-- A declaration: a tagged-union type declaration or an opaque
declaration preserved verbatim. -/
inductive PDecl where
  | enumDecl (name : String) (variants : List PVariant)
  | otherDecl (t : Tok)
  deriving Repr, DecidableEq

/-- Canonical printing of a field list: every field is followed by a
trailing comma. -/
def printPFields : List PField → List Tok
  | [] => []
  | f :: fs => .id f.name :: .colon :: .id f.ty :: .comma :: printPFields fs

/-- Canonical printing of one variant, always with a trailing comma. -/
def printPVariant (v : PVariant) : List Tok :=
  match v.fields with
  | none => [.id v.name, .comma]
  | some fs => .id v.name :: .lbrace :: (printPFields fs ++ [.rbrace, .comma])

/-- Canonical printing of a variant list. -/
def printPVariants : List PVariant → List Tok
  | [] => []
  | v :: vs => printPVariant v ++ printPVariants vs

/-- Canonical printing of a declaration. -/
def printPDecl : PDecl → List Tok
  | .enumDecl n vs => .kwEnum :: .id n :: .lbrace :: (printPVariants vs ++ [.rbrace])
  | .otherDecl t => [t]

/-- Canonical printing of a whole file. -/
def printPFile : List PDecl → List Tok
  | [] => []
  | d :: ds => printPDecl d ++ printPFile ds

/-- Parse a field list up to and including the closing brace; the comma
after the last field may be omitted. -/
def parsePFields : List Tok → Option (List PField × List Tok)
  | .rbrace :: ts => some ([], ts)
  | .id f :: .colon :: .id ty :: .comma :: ts => do
    let (fs, r) ← parsePFields ts
    some (⟨f, ty⟩ :: fs, r)
  | .id f :: .colon :: .id ty :: .rbrace :: ts => some ([⟨f, ty⟩], ts)
  | _ => none

theorem parsePFields_shrinks : ∀ ts fs r, parsePFields ts = some (fs, r) →
    r.length < ts.length := by
  intro ts
  induction ts using parsePFields.induct with
  | case1 ts =>
    intro fs r h
    simp only [parsePFields, Option.some.injEq, Prod.mk.injEq] at h
    rcases h with ⟨h1, h2⟩
    subst h2
    simp only [List.length_cons]
    omega
  | case2 f ty ts ih =>
    intro fs r h
    simp only [parsePFields, Option.bind_eq_bind] at h
    cases hp : parsePFields ts with
    | none => rw [hp] at h; simp at h
    | some p =>
      obtain ⟨a, b⟩ := p
      rw [hp] at h
      simp at h
      have hlt := ih a b (by rw [hp])
      have hbr : b = r := h.2
      subst hbr
      simp only [List.length_cons]
      omega
  | case3 f ty ts =>
    intro fs r h
    simp only [parsePFields, Option.some.injEq, Prod.mk.injEq] at h
    rcases h with ⟨h1, h2⟩
    subst h2
    simp only [List.length_cons]
    omega
  | case4 ts h1 h2 h3 =>
    intro fs r h
    simp [parsePFields, h1, h2, h3] at h

/-- Parse a variant list up to and including the closing brace of the
enum body; the comma after the last variant may be omitted. -/
def parsePVariants (ts : List Tok) : Option (List PVariant × List Tok) :=
  match ts with
  | .rbrace :: ts' => some ([], ts')
  | .id v :: .comma :: ts' => do
    let (vs, r) ← parsePVariants ts'
    some (⟨v, none⟩ :: vs, r)
  | .id v :: .rbrace :: ts' => some ([⟨v, none⟩], ts')
  | .id v :: .lbrace :: ts' =>
    match h : parsePFields ts' with
    | none => none
    | some (fs, r) =>
      match r with
      | .comma :: r' => do
        let (vs, r2) ← parsePVariants r'
        some (⟨v, some fs⟩ :: vs, r2)
      | .rbrace :: r' => some ([⟨v, some fs⟩], r')
      | _ => none
  | _ => none
termination_by ts.length
decreasing_by
  · simp; omega
  · have := parsePFields_shrinks ts' fs (Tok.comma :: r') h
    simp at this ⊢
    omega

theorem parsePVariants_shrinks : ∀ ts vs r, parsePVariants ts = some (vs, r) →
    r.length < ts.length := by
  intro ts
  induction ts using parsePVariants.induct with
  | case1 ts' =>
    intro vs r h
    rw [parsePVariants] at h
    simp only [Option.some.injEq, Prod.mk.injEq] at h
    rcases h with ⟨h1, h2⟩
    subst h2
    simp only [List.length_cons]
    omega
  | case2 v ts' ih =>
    intro vs r h
    rw [parsePVariants] at h
    simp only [Option.bind_eq_bind] at h
    cases hp : parsePVariants ts' with
    | none => rw [hp] at h; simp at h
    | some p =>
      obtain ⟨a, b⟩ := p
      rw [hp] at h
      simp at h
      have hlt := ih a b (by rw [hp])
      have hbr : b = r := h.2
      subst hbr
      simp only [List.length_cons]
      omega
  | case3 v ts' =>
    intro vs r h
    rw [parsePVariants] at h
    simp only [Option.some.injEq, Prod.mk.injEq] at h
    rcases h with ⟨h1, h2⟩
    subst h2
    simp only [List.length_cons]
    omega
  | case4 v ts' hpf =>
    intro vs r h
    rw [parsePVariants] at h
    split at h
    · simp at h
    · rename_i fs0 r0 heq
      rw [hpf] at heq
      simp at heq
  | case5 v ts' fs r' hpf hpf2 ih =>
    intro vs r h
    rw [parsePVariants] at h
    split at h
    · simp at h
    · rename_i fs0 r0 heq
      rw [hpf] at heq
      simp only [Option.some.injEq, Prod.mk.injEq] at heq
      obtain ⟨h1, h2⟩ := heq
      subst h1
      subst h2
      simp only [Option.bind_eq_bind] at h
      cases hp : parsePVariants r' with
      | none => rw [hp] at h; simp at h
      | some p =>
        obtain ⟨a, b⟩ := p
        rw [hp] at h
        simp at h
        have hlt := ih a b (by rw [hp])
        have hbr : b = r := h.2
        subst hbr
        have hs := parsePFields_shrinks ts' fs (Tok.comma :: r') hpf
        simp only [List.length_cons] at hs ⊢
        omega
  | case6 v ts' fs r' hpf hpf2 =>
    intro vs r h
    rw [parsePVariants] at h
    split at h
    · simp at h
    · rename_i fs0 r0 heq
      rw [hpf] at heq
      simp only [Option.some.injEq, Prod.mk.injEq] at heq
      obtain ⟨h1, h2⟩ := heq
      subst h1
      subst h2
      simp at h
      have hbr : r' = r := h.2
      have hs := parsePFields_shrinks ts' fs (Tok.rbrace :: r') hpf
      rw [hbr] at hs
      simp only [List.length_cons] at hs ⊢
      omega
  | case7 v ts' fs r0 hpf h0 hne1 hne2 =>
    intro vs r h
    rcases r0 with _ | ⟨t, rr⟩
    · rw [parsePVariants] at h
      split at h
      · simp at h
      · rename_i fs0 r0 heq
        rw [hpf] at heq
        simp only [Option.some.injEq, Prod.mk.injEq] at heq
        obtain ⟨h1, h2⟩ := heq
        subst h1
        subst h2
        simp at h
    · cases t with
      | comma => exact absurd (proof_irrel_heq h0 hpf) (fun hh => hne1 rr hpf rfl hh)
      | rbrace => exact absurd (proof_irrel_heq h0 hpf) (fun hh => hne2 rr hpf rfl hh)
      | kwEnum =>
        rw [parsePVariants] at h
        split at h
        · simp at h
        · rename_i fs0 r1 heq
          rw [hpf] at heq
          simp only [Option.some.injEq, Prod.mk.injEq] at heq
          obtain ⟨h1, h2⟩ := heq
          subst h1
          subst h2
          simp at h
      | lbrace =>
        rw [parsePVariants] at h
        split at h
        · simp at h
        · rename_i fs0 r1 heq
          rw [hpf] at heq
          simp only [Option.some.injEq, Prod.mk.injEq] at heq
          obtain ⟨h1, h2⟩ := heq
          subst h1
          subst h2
          simp at h
      | colon =>
        rw [parsePVariants] at h
        split at h
        · simp at h
        · rename_i fs0 r1 heq
          rw [hpf] at heq
          simp only [Option.some.injEq, Prod.mk.injEq] at heq
          obtain ⟨h1, h2⟩ := heq
          subst h1
          subst h2
          simp at h
      | id s =>
        rw [parsePVariants] at h
        split at h
        · simp at h
        · rename_i fs0 r1 heq
          rw [hpf] at heq
          simp only [Option.some.injEq, Prod.mk.injEq] at heq
          obtain ⟨h1, h2⟩ := heq
          subst h1
          subst h2
          simp at h
  | case8 x h1 h2 h3 h4 =>
    intro vs r h
    exfalso
    rcases x with _ | ⟨t, rest⟩
    · simp [parsePVariants] at h
    · cases t with
      | rbrace => exact h1 rest rfl
      | kwEnum => simp [parsePVariants] at h
      | lbrace => simp [parsePVariants] at h
      | comma => simp [parsePVariants] at h
      | colon => simp [parsePVariants] at h
      | id s =>
        rcases rest with _ | ⟨t2, rest2⟩
        · simp [parsePVariants] at h
        · cases t2 with
          | comma => exact h2 s rest2 rfl
          | rbrace => exact h3 s rest2 rfl
          | lbrace => exact h4 s rest2 rfl
          | kwEnum => simp [parsePVariants] at h
          | colon => simp [parsePVariants] at h
          | id s2 => simp [parsePVariants] at h

/-- Parse a whole file: a sequence of declarations.  A token that does not
open an enum declaration is preserved verbatim as an opaque declaration;
an `enum` keyword must be followed by a well-formed enum declaration or
the whole parse fails (a ParseError). -/
def parseDecls (ts : List Tok) : Option (List PDecl) :=
  match ts with
  | [] => some []
  | .kwEnum :: rest =>
    match rest with
    | .id n :: .lbrace :: body =>
      match h : parsePVariants body with
      | none => none
      | some (vs, r) => do
        let ds ← parseDecls r
        some (.enumDecl n vs :: ds)
    | _ => none
  | t :: rest => do
    let ds ← parseDecls rest
    some (.otherDecl t :: ds)
termination_by ts.length
decreasing_by
  · have := parsePVariants_shrinks body vs r h
    simp only [List.length_cons]
    omega
  · simp only [List.length_cons]
    omega

/-- Well-formedness of a parsed declaration: an opaque declaration never
holds the `enum` keyword (the parser would have taken the enum branch). -/
def wfDecl : PDecl → Bool
  | .otherDecl .kwEnum => false
  | _ => true

theorem parseDecls_wf : ∀ ts ds, parseDecls ts = some ds →
    ds.all wfDecl = true := by
  intro ts
  induction ts using parseDecls.induct with
  | case1 =>
    intro ds h
    rw [parseDecls] at h
    simp at h
    simp [h]
  | case2 n body hpv =>
    intro ds h
    rw [parseDecls] at h
    split at h
    · simp at h
    · rename_i vs0 r0 heq
      rw [hpv] at heq
      simp at heq
  | case3 n body vs r hpv ih =>
    intro ds h
    rw [parseDecls] at h
    split at h
    · rename_i heq
      rw [hpv] at heq
      simp at heq
    · rename_i vs0 r0 heq
      rw [hpv] at heq
      simp only [Option.some.injEq, Prod.mk.injEq] at heq
      obtain ⟨h1, h2⟩ := heq
      subst h1
      subst h2
      simp only [Option.bind_eq_bind] at h
      cases hp : parseDecls r with
      | none => rw [hp] at h; simp at h
      | some ds' =>
        rw [hp] at h
        simp at h
        have hw := ih ds' hp
        simp [← h, wfDecl, hw]
  | case4 rest hne =>
    intro ds h
    exfalso
    rcases rest with _ | ⟨t2, rest2⟩
    · simp [parseDecls] at h
    · cases t2 with
      | id s =>
        rcases rest2 with _ | ⟨t3, rest3⟩
        · simp [parseDecls] at h
        · cases t3 with
          | lbrace => exact hne s rest3 rfl
          | kwEnum => simp [parseDecls] at h
          | rbrace => simp [parseDecls] at h
          | comma => simp [parseDecls] at h
          | colon => simp [parseDecls] at h
          | id s2 => simp [parseDecls] at h
      | kwEnum => simp [parseDecls] at h
      | lbrace => simp [parseDecls] at h
      | rbrace => simp [parseDecls] at h
      | comma => simp [parseDecls] at h
      | colon => simp [parseDecls] at h
  | case5 t rest hne ih =>
    intro ds h
    have hred : parseDecls (t :: rest) =
        (parseDecls rest).bind (fun ds' => some (.otherDecl t :: ds')) := by
      cases t with
      | kwEnum => exact absurd rfl hne
      | lbrace =>
        rw [parseDecls]
        · rfl
        · exact hne
      | rbrace =>
        rw [parseDecls]
        · rfl
        · exact hne
      | comma =>
        rw [parseDecls]
        · rfl
        · exact hne
      | colon =>
        rw [parseDecls]
        · rfl
        · exact hne
      | id s =>
        rw [parseDecls]
        · rfl
        · exact hne
    rw [hred] at h
    cases hp : parseDecls rest with
    | none => rw [hp] at h; simp at h
    | some ds' =>
      rw [hp] at h
      simp at h
      have hw := ih ds' hp
      have hwt : wfDecl (.otherDecl t) = true := by
        cases t with
        | kwEnum => exact absurd rfl hne
        | lbrace => rfl
        | rbrace => rfl
        | comma => rfl
        | colon => rfl
        | id s => rfl
      simp [← h, hwt, hw]

theorem parsePFields_print (fs : List PField) (rest : List Tok) :
    parsePFields (printPFields fs ++ (.rbrace :: rest)) = some (fs, rest) := by
  induction fs with
  | nil => simp [printPFields, parsePFields]
  | cons f fs ih =>
    obtain ⟨nm, ty⟩ := f
    simp [printPFields, parsePFields, ih]

theorem parsePVariants_print (vs : List PVariant) (rest : List Tok) :
    parsePVariants (printPVariants vs ++ (.rbrace :: rest)) = some (vs, rest) := by
  induction vs with
  | nil => simp [printPVariants, parsePVariants]
  | cons v vs ih =>
    obtain ⟨nm, fl⟩ := v
    cases fl with
    | none =>
      simp only [printPVariants, printPVariant, List.cons_append, List.nil_append,
        List.append_assoc]
      rw [parsePVariants]
      simp [ih]
    | some fs =>
      simp only [printPVariants, printPVariant, List.cons_append, List.nil_append,
        List.append_assoc]
      rw [parsePVariants]
      split
      · rename_i heq
        rw [parsePFields_print] at heq
        simp at heq
      · rename_i fs0 r0 heq
        rw [parsePFields_print] at heq
        simp only [Option.some.injEq, Prod.mk.injEq] at heq
        obtain ⟨h1, h2⟩ := heq
        subst h1
        subst h2
        simp [ih]

theorem parseDecls_print : ∀ ds, ds.all wfDecl = true →
    parseDecls (printPFile ds) = some ds := by
  intro ds
  induction ds with
  | nil => intro h; simp [printPFile, parseDecls]
  | cons d ds ih =>
    intro h
    simp only [List.all_cons, Bool.and_eq_true] at h
    have ihds := ih h.2
    cases d with
    | enumDecl n vs =>
      simp only [printPFile, printPDecl, List.cons_append, List.append_assoc]
      rw [parseDecls]
      split
      · rename_i heq
        simp only [List.nil_append] at heq
        rw [parsePVariants_print] at heq
        simp at heq
      · rename_i vs0 r0 heq
        simp only [List.nil_append] at heq
        rw [parsePVariants_print] at heq
        simp only [Option.some.injEq, Prod.mk.injEq] at heq
        obtain ⟨h1, h2⟩ := heq
        subst h1
        subst h2
        simp [ihds]
    | otherDecl t =>
      have hwt : wfDecl (.otherDecl t) = true := h.1
      cases t with
      | kwEnum => simp [wfDecl] at hwt
      | lbrace =>
        simp only [printPFile, printPDecl, List.cons_append, List.nil_append]
        rw [parseDecls]
        · simp [ihds]
        · simp
      | rbrace =>
        simp only [printPFile, printPDecl, List.cons_append, List.nil_append]
        rw [parseDecls]
        · simp [ihds]
        · simp
      | comma =>
        simp only [printPFile, printPDecl, List.cons_append, List.nil_append]
        rw [parseDecls]
        · simp [ihds]
        · simp
      | colon =>
        simp only [printPFile, printPDecl, List.cons_append, List.nil_append]
        rw [parseDecls]
        · simp [ihds]
        · simp
      | id s =>
        simp only [printPFile, printPDecl, List.cons_append, List.nil_append]
        rw [parseDecls]
        · simp [ihds]
        · simp

end PP

/-! ### Success lemmas for the synthesizers -/

theorem mk_arm_isOk (head n : String) (fields : List TransactionField)
    (hn : isIdent n = true)
    (hf : fields.all (fun g => isIdent g.name) = true) :
    ∃ a, mk_arm head n fields = .ok a := by
  rcases fields with _ | ⟨f, fs⟩
  · exact ⟨⟨.path [head] n, .okUnit⟩, by simp [mk_arm, hn]⟩
  · exact ⟨⟨.structPat [head] n ((f :: fs).map (·.name)), .okUnit⟩,
      by simp [mk_arm, hn, hf]⟩

theorem update_verify_stmts_isOk (n : String) (fields : List TransactionField)
    (hn : isIdent n = true)
    (hf : fields.all (fun g => isIdent g.name) = true) :
    ∀ st, ∃ st', update_verify_stmts n fields st = .ok st' := by
  intro st
  induction st with
  | nil => exact ⟨[], rfl⟩
  | cons s rest ih =>
    obtain ⟨r', hr⟩ := ih
    cases s with
    | matchStmt m =>
      by_cases hm : scrutIsTxType m = true
      · obtain ⟨a, ha⟩ := mk_arm_isOk "TransactionType" n fields hn hf
        exact ⟨.matchStmt ⟨m.scrut,
            m.arms.filter (fun b => !(isNoopPathArm b)) ++ [a]⟩ :: rest,
          by simp [update_verify_stmts, hm, ha, bind, Except.bind]⟩
      · have hm' : scrutIsTxType m = false := by simpa using hm
        exact ⟨.matchStmt m :: r',
          by simp [update_verify_stmts, hm', hr, bind, Except.bind]⟩
    | otherStmt c =>
      exact ⟨.otherStmt c :: r',
        by simp [update_verify_stmts, hr, bind, Except.bind]⟩

/-- Shape of a successful `modify_tx_file` run on an initializer-shaped
tx tree: the new named-fields variant is appended and the Noop variants
filtered out of the union, and in the verify match the Noop path arms
are dropped and the new struct arm is PUSHED AT THE END. -/
theorem modify_tx_file_shape (pt : String → Option String) (tx_name : String)
    (fields : List TransactionField) (sTy : String) (u : String)
    (vs : List SynVariant) (spre : List Stmt) (scr : Scrut)
    (armsV : List MatchArm) (srest : List Stmt)
    (hn : isIdent tx_name = true) (hfne : fields ≠ [])
    (hfnames : fields.all (fun g => isIdent g.name) = true)
    (hS : pt "String" = some sTy)
    (hspre : spre.all (fun s => !(isTxMatchStmt s)) = true)
    (hscr : scrutIsTxType ⟨scr, armsV⟩ = true) :
    modify_tx_file pt tx_name fields
      (txProject u vs (spre ++ .matchStmt ⟨scr, armsV⟩ :: srest)) =
      .ok (txProject u
        ((vs ++ [(⟨tx_name, some (fields.map (fun g =>
            (⟨g.name, (pt g.field_type).getD sTy⟩ : SynField)))⟩ : SynVariant)]).filter
          (fun v => v.ident != "Noop"))
        (spre ++ .matchStmt ⟨scr,
          armsV.filter (fun a => !(isNoopPathArm a)) ++
          [(⟨.structPat ["TransactionType"] tx_name (fields.map (·.name)),
            .okUnit⟩ : MatchArm)]⟩ :: srest)) := by
  rw [modify_tx_file_txProject,
    build_variant_ok pt tx_name fields sTy hfne hn hfnames hS,
    update_verify_stmts_append tx_name fields spre _ hspre,
    update_verify_stmts_found tx_name fields ⟨scr, armsV⟩ srest hscr,
    mk_arm_ok "TransactionType" tx_name fields hn hfne hfnames]
  rfl

/-- Shape of a successful `modify_state_file` run on an
initializer-shaped state tree: in both `validate_tx` and `process_tx`
the scrutinee of the match at statement index 1 is overwritten with
`tx.tx_type`, Noop path arms are dropped when the on-disk tx tree has at
least one variant, and the new struct arm is INSERTED AT INDEX 0. -/
theorem modify_state_file_shape (tx_name : String)
    (fields : List TransactionField) (u' : String)
    (sv0 : Stmt) (scrV : Scrut) (armsVal : List MatchArm) (svrest : List Stmt)
    (sp0 : Stmt) (scrP : Scrut) (armsPro : List MatchArm) (sprest : List Stmt)
    (txd : SynFile)
    (hn : isIdent tx_name = true) (hfne : fields ≠ [])
    (hfnames : fields.all (fun g => isIdent g.name) = true) :
    modify_state_file tx_name fields
      (stateProject u' (sv0 :: .matchStmt ⟨scrV, armsVal⟩ :: svrest)
        (sp0 :: .matchStmt ⟨scrP, armsPro⟩ :: sprest)) (some txd) =
      .ok ⟨[.otherTop u', .implItem false
        [.fn ⟨"validate_tx", sv0 :: .matchStmt ⟨.fieldAccess "tx" "tx_type",
           (⟨.structPat ["TransactionType"] tx_name (fields.map (·.name)),
             .okUnit⟩ : MatchArm) ::
           (if variantCountOnDisk txd ≥ 1 then
             armsVal.filter (fun a => !(isNoopPathArm a)) else armsVal)⟩ :: svrest⟩,
         .fn ⟨"process_tx", sp0 :: .matchStmt ⟨.fieldAccess "tx" "tx_type",
           (⟨.structPat ["TransactionType"] tx_name (fields.map (·.name)),
             .okUnit⟩ : MatchArm) ::
           (if variantCountOnDisk txd ≥ 1 then
             armsPro.filter (fun a => !(isNoopPathArm a)) else armsPro)⟩ :: sprest⟩]]⟩ := by
  rw [modify_state_file_stateProject,
    process_state_method_shape tx_name fields (variantCountOnDisk txd)
      "validate_tx" sv0 ⟨scrV, armsVal⟩ svrest (by decide),
    process_state_method_shape tx_name fields (variantCountOnDisk txd)
      "process_tx" sp0 ⟨scrP, armsPro⟩ sprest (by decide),
    mk_arm_ok "TransactionType" tx_name fields hn hfne hfnames]
  rfl

/-! ### Claim theorems -/

/-- C10: `parse_fields` partitions the command-line tokens into
consecutive pairs and never rejects the input: the result has
⌈length/2⌉ fields, the i-th field pairs token 2i (name) with token 2i+1
(type), and a trailing odd token becomes a field with the default type
`"String"`. -/
theorem claimC10 (args : List String) :
    (parse_fields args).length = (args.length + 1) / 2 ∧
    ∀ i : Nat, i < (parse_fields args).length →
      (parse_fields args).getD i ⟨"", ""⟩ =
        ⟨args.getD (2 * i) "",
         if 2 * i + 1 < args.length then args.getD (2 * i + 1) "" else "String"⟩ := by
  induction args using parse_fields.induct with
  | case1 => simp [parse_fields]
  | case2 a =>
    refine ⟨by simp [parse_fields], ?_⟩
    intro i hi
    simp only [parse_fields, List.length_cons, List.length_nil] at hi
    have hi0 : i = 0 := by omega
    subst hi0
    simp [parse_fields]
  | case3 a b rest ih =>
    refine ⟨by simp [parse_fields, ih.1]; omega, ?_⟩
    intro i hi
    cases i with
    | zero => simp [parse_fields]
    | succ j =>
      simp only [parse_fields, List.length_cons] at hi
      have h2 := ih.2 j (by omega)
      have e1 : 2 * (j + 1) = 2 * j + 2 := by ring
      simp only [parse_fields, List.getD_cons_succ, e1, List.length_cons]
      rw [h2]
      have e2 : (2 * j + 2 + 1 < rest.length + 1 + 1) ↔
          (2 * j + 1 < rest.length) := by omega
      simp [e2]

/-- Closed witness for C10: an odd three-token list yields two fields,
the second defaulting to type String. -/
theorem claimC10_witness :
    (parse_fields ["amount", "Integer", "recipient"]).getD 1 ⟨"", ""⟩ =
      ⟨"recipient", "String"⟩ := by
  have h := (claimC10 ["amount", "Integer", "recipient"]).2 1 (by simp [parse_fields])
  simpa using h

/-- C6: `create_transaction` is all-or-nothing up to the write boundary:
whenever any step up to and including producing both output trees fails,
the file system is returned untouched; the files change only on full
success, and then both are replaced by the trees produced from the
pre-write file contents. -/
theorem claimC6 (pt : String → Option String) (tx_name : String)
    (fields : List TransactionField) (fs : Fs) :
    (∀ e, (create_transaction pt tx_name fields fs).2 = some e →
      (create_transaction pt tx_name fields fs).1 = fs) ∧
    ((create_transaction pt tx_name fields fs).2 = none →
      ∃ txAst txAst' stAst stAst',
        fs.txFile = some txAst ∧ fs.stateFile = some stAst ∧
        modify_tx_file pt tx_name fields txAst = .ok txAst' ∧
        modify_state_file tx_name fields stAst fs.txFile = .ok stAst' ∧
        (create_transaction pt tx_name fields fs).1 =
          { fs with txFile := some txAst', stateFile := some stAst' }) := by
  obtain ⟨pe, tf, sf⟩ := fs
  cases pe with
  | false =>
    refine ⟨fun e _ => rfl, fun hn => ?_⟩
    simp [create_transaction] at hn
  | true =>
    cases tf with
    | none =>
      refine ⟨fun e _ => rfl, fun hn => ?_⟩
      simp [create_transaction] at hn
    | some txAst =>
      cases hm : modify_tx_file pt tx_name fields txAst with
      | error e0 =>
        refine ⟨fun e he => ?_, fun hn => ?_⟩
        · simp [create_transaction, hm]
        · simp [create_transaction, hm] at hn
      | ok txAst' =>
        cases sf with
        | none =>
          refine ⟨fun e he => ?_, fun hn => ?_⟩
          · simp [create_transaction, hm]
          · simp [create_transaction, hm] at hn
        | some stAst =>
          cases hs : modify_state_file tx_name fields stAst (some txAst) with
          | error e1 =>
            refine ⟨fun e he => ?_, fun hn => ?_⟩
            · simp [create_transaction, hm, hs]
            · simp [create_transaction, hm, hs] at hn
          | ok stAst' =>
            refine ⟨fun e he => ?_, fun _ => ?_⟩
            · simp [create_transaction, hm, hs] at he
            · exact ⟨txAst, txAst', stAst, stAst', rfl, rfl, hm, hs, by
                simp [create_transaction, hm, hs]⟩

/-- Closed witness for C6: on a missing project directory the operation
fails and the file system is untouched. -/
theorem claimC6_witness :
    (create_transaction identTypeParser "JoinGame" [⟨"game_id", "u64"⟩]
      ⟨false, none, none⟩).1 = ⟨false, none, none⟩ :=
  (claimC6 identTypeParser "JoinGame" [⟨"game_id", "u64"⟩]
    ⟨false, none, none⟩).1 .projectNotFound rfl

/-- C9: for every syntactically valid input text T (a token sequence the
parser accepts), printing is idempotent after one pass:
print(parse(print(parse T))) = print(parse T). -/
theorem claimC9 (T : List PP.Tok) (t : List PP.PDecl)
    (hT : PP.parseDecls T = some t) :
    (PP.parseDecls (PP.printPFile t)).map PP.printPFile =
      some (PP.printPFile t) := by
  rw [PP.parseDecls_print t (PP.parseDecls_wf T t hT)]
  rfl

/-- Closed witness for C9: a file whose enum omits the trailing comma
parses, and the canonical print (which adds the comma) is a fixed point
of print-after-parse. -/
theorem claimC9_witness :
    (PP.parseDecls (PP.printPFile
      [PP.PDecl.enumDecl "TransactionType" [⟨"Noop", none⟩],
       PP.PDecl.otherDecl (PP.Tok.id "x")])).map PP.printPFile =
    some (PP.printPFile
      [PP.PDecl.enumDecl "TransactionType" [⟨"Noop", none⟩],
       PP.PDecl.otherDecl (PP.Tok.id "x")]) := by
  refine claimC9 [PP.Tok.kwEnum, PP.Tok.id "TransactionType", PP.Tok.lbrace,
    PP.Tok.id "Noop", PP.Tok.rbrace, PP.Tok.id "x"] _ ?_
  rw [PP.parseDecls]
  split
  · rename_i heq
    rw [PP.parsePVariants] at heq
    simp at heq
  · rename_i vs0 r0 heq
    rw [PP.parsePVariants] at heq
    simp only [Option.some.injEq, Prod.mk.injEq] at heq
    obtain ⟨h1, h2⟩ := heq
    subst h1
    subst h2
    rw [PP.parseDecls]
    · rw [PP.parseDecls]
      simp
    · simp

/-- C8: a caller-supplied type text that the type parser rejects is
silently replaced by the default scalar type (the parse of `"String"`):
the field is still created with its own name, no error is surfaced for
it, and the whole tx-file transformation still succeeds. -/
theorem claimC8 (pt : String → Option String) (f : TransactionField)
    (sTy : String) (tx_name : String) (fields : List TransactionField)
    (u : String) (vs : List SynVariant) (vstmts : List Stmt)
    (hS : pt "String" = some sTy)
    (hbad : pt f.field_type = none)
    (hmem : f ∈ fields)
    (hn : isIdent tx_name = true)
    (hfnames : fields.all (fun g => isIdent g.name) = true)
    (hfne : fields ≠ []) :
    to_syn_field pt f = .ok ⟨f.name, sTy⟩ ∧
    build_variant pt tx_name fields =
      .ok ⟨tx_name, some (fields.map (fun g => ⟨g.name, (pt g.field_type).getD sTy⟩))⟩ ∧
    (⟨f.name, sTy⟩ : SynField) ∈
      fields.map (fun g => (⟨g.name, (pt g.field_type).getD sTy⟩ : SynField)) ∧
    (modify_tx_file pt tx_name fields (txProject u vs vstmts)).isOk = true := by
  have hfid : isIdent f.name = true := List.all_eq_true.mp hfnames f hmem
  refine ⟨?_, build_variant_ok pt tx_name fields sTy hfne hn hfnames hS, ?_, ?_⟩
  · simp [to_syn_field_ok pt f sTy hfid hS, hbad]
  · exact List.mem_map.mpr ⟨f, hmem, by simp [hbad]⟩
  · obtain ⟨st', hst⟩ := update_verify_stmts_isOk tx_name fields hn hfnames vstmts
    rw [modify_tx_file_txProject pt tx_name fields u vs vstmts,
      build_variant_ok pt tx_name fields sTy hfne hn hfnames hS, hst]
    rfl

/-- Closed witness for C8: the unparsable type text of the spec's own
scenario is replaced by String and the transformation succeeds. -/
theorem claimC8_witness :
    to_syn_field identTypeParser ⟨"amount", "not a type@@"⟩ =
      .ok ⟨"amount", "String"⟩ ∧
    (modify_tx_file identTypeParser "Transfer" [⟨"amount", "not a type@@"⟩]
      (txProject "u" [⟨"Noop", none⟩]
        [.matchStmt ⟨.fieldAccess "self" "tx_type",
          [⟨.path ["TransactionType"] "Noop", .okUnit⟩]⟩])).isOk = true := by
  have h := claimC8 identTypeParser ⟨"amount", "not a type@@"⟩ "String" "Transfer"
    [⟨"amount", "not a type@@"⟩] "u" [⟨"Noop", none⟩]
    [.matchStmt ⟨.fieldAccess "self" "tx_type",
      [⟨.path ["TransactionType"] "Noop", .okUnit⟩]⟩]
    (by decide) (by decide) (by simp) (by decide) (by decide) (by simp)
  exact ⟨h.1, h.2.2.2⟩

/-- C7: status of the variant synthesizer.  The empty-fields branch of
`modify_tx_file` interpolates the `&str` transaction name into
`parse_quote!` as a string literal, which cannot parse as a `syn`
Variant, so instead of producing a unit variant the code panics (the
claim and the code's own comment expect a unit variant — a code bug).
For a nonempty field list the synthesizer does behave as claimed: one
named field per entry, in caller order, and the dispatch arm binds
exactly those field names in the same order. -/
theorem claimC7 (pt : String → Option String) (tx_name : String)
    (fields : List TransactionField) (sTy : String)
    (hfne : fields ≠ []) (hn : isIdent tx_name = true)
    (hf : fields.all (fun g => isIdent g.name) = true)
    (hS : pt "String" = some sTy) :
    (∀ (pt' : String → Option String) (n' : String),
      build_variant pt' n' [] = .error .parseQuotePanic) ∧
    build_variant pt tx_name fields =
      .ok ⟨tx_name, some (fields.map (fun g => ⟨g.name, (pt g.field_type).getD sTy⟩))⟩ ∧
    mk_arm "TransactionType" tx_name fields =
      .ok ⟨.structPat ["TransactionType"] tx_name (fields.map (·.name)), .okUnit⟩ :=
  ⟨fun _ _ => rfl,
   build_variant_ok pt tx_name fields sTy hfne hn hf hS,
   mk_arm_ok "TransactionType" tx_name fields hn hfne hf⟩

/-! ### Concrete example files

These instantiate the initializer-shaped skeletons for the closed
counterexamples and witnesses. -/

/-- The arm `TransactionType::CreateGame => Ok(())`. -/
def cgArm : MatchArm := ⟨.path ["TransactionType"] "CreateGame", .okUnit⟩

/-- The arm `TransactionType::JoinGame { game_id } => Ok(())`. -/
def jgArm : MatchArm := ⟨.structPat ["TransactionType"] "JoinGame" ["game_id"], .okUnit⟩

/-- A tx.rs tree after one extension: union `{ CreateGame }`, verify
matching `self.tx_type` with the single arm for CreateGame. -/
def txSecond : SynFile :=
  txProject "u" [⟨"CreateGame", none⟩]
    [.matchStmt ⟨.fieldAccess "self" "tx_type", [cgArm]⟩]

/-- The matching state.rs tree: `validate_tx` and `process_tx`, each with
the match at statement index 1 holding the CreateGame arm. -/
def stSecond : SynFile :=
  stateProject "v"
    [.otherStmt "tx.verify()?", .matchStmt ⟨.otherExpr "tx.tx_type", [cgArm]⟩]
    [.otherStmt "self.validate_tx(tx)?", .matchStmt ⟨.otherExpr "tx.tx_type", [cgArm]⟩]

/-- Success lemma for test.rs's variant construction. -/
theorem test_build_variant_isOk (tx_name : String)
    (tfields : List (String × String)) (hn : isIdent tx_name = true)
    (htf : tfields.all (fun p => isIdent p.1 && isIdent p.2) = true) :
    ∃ v, test_build_variant tx_name tfields = .ok v := by
  rcases tfields with _ | ⟨p, ps⟩
  · exact ⟨⟨tx_name, none⟩, by simp [test_build_variant, hn]⟩
  · exact ⟨⟨tx_name, some ((p :: ps).map (fun q => ⟨q.1, q.2⟩))⟩,
      by simp [test_build_variant, hn, htf]⟩

/-- Success lemma for test.rs's verify-loop body: it never errors when
the identifiers are valid. -/
theorem test_process_verify_isOk (tx_name : String)
    (fields : List TransactionField) (hn : isIdent tx_name = true)
    (hf : fields.all (fun g => isIdent g.name) = true) :
    ∀ m, ∃ m', test_process_verify tx_name fields m = .ok m' := by
  intro m
  by_cases hv : (m.ident == "verify") = true
  · rcases hst : m.stmts with _ | ⟨s0, rest⟩
    · exact ⟨m, by simp [test_process_verify, hv, hst]⟩
    · cases s0 with
      | matchStmt me =>
        obtain ⟨a, ha⟩ := mk_arm_isOk "Self" tx_name fields hn hf
        by_cases hd : (me.arms.any (fun b =>
            match b.pat with
            | .identPat n => n == tx_name
            | _ => false)) = true
        · exact ⟨m, by simp [test_process_verify, hv, hst, ha, hd, bind, Except.bind]⟩
        · have hd' : (me.arms.any (fun b =>
              match b.pat with
              | .identPat n => n == tx_name
              | _ => false)) = false := by simpa using hd
          exact ⟨⟨m.ident, .matchStmt ⟨me.scrut, a :: me.arms⟩ :: rest⟩,
            by simp [test_process_verify, hv, hst, ha, hd', bind, Except.bind]⟩
      | otherStmt c =>
        exact ⟨m, by simp [test_process_verify, hv, hst]⟩
  · have hv' : (m.ident == "verify") = false := by simpa using hv
    exact ⟨m, by simp [test_process_verify, hv']⟩

/-- Closed witness for C7: the empty-fields call panics instead of
producing a unit variant, while the one-field call produces the field
and the binding in caller order. -/
theorem claimC7_witness :
    build_variant identTypeParser "CreateGame" [] = .error .parseQuotePanic ∧
    build_variant identTypeParser "JoinGame" [⟨"game_id", "u64"⟩] =
      .ok ⟨"JoinGame", some [⟨"game_id", "u64"⟩]⟩ ∧
    mk_arm "TransactionType" "JoinGame" [⟨"game_id", "u64"⟩] =
      .ok ⟨.structPat ["TransactionType"] "JoinGame" ["game_id"], .okUnit⟩ := by
  have h := claimC7 identTypeParser "JoinGame" [⟨"game_id", "u64"⟩] "String"
    (by simp) (by decide) (by decide) (by decide)
  exact ⟨h.1 identTypeParser "CreateGame", (h.2.1).trans (by rfl), h.2.2⟩

/-- Counterexample for C2 (the spec's own second-transaction scenario):
extending union `{ CreateGame }` with `JoinGame { game_id }`, the verify
function of tx.rs ends with the pre-existing CreateGame arm still at
index 0 and the new JoinGame arm APPENDED at the end — `modify_tx_file`
pushes the arm (`match_expr.arms.push`), it does not insert at index 0. -/
theorem claimC2_counterexample :
    modify_tx_file identTypeParser "JoinGame" [⟨"game_id", "u64"⟩] txSecond =
      .ok (txProject "u" [⟨"CreateGame", none⟩, ⟨"JoinGame", some [⟨"game_id", "u64"⟩]⟩]
        [.matchStmt ⟨.fieldAccess "self" "tx_type", [cgArm, jgArm]⟩]) ∧
    (verifyMatchArms (txProject "u"
      [⟨"CreateGame", none⟩, ⟨"JoinGame", some [⟨"game_id", "u64"⟩]⟩]
      [.matchStmt ⟨.fieldAccess "self" "tx_type", [cgArm, jgArm]⟩])).get? 0 =
      some cgArm ∧
    (verifyMatchArms (txProject "u"
      [⟨"CreateGame", none⟩, ⟨"JoinGame", some [⟨"game_id", "u64"⟩]⟩]
      [.matchStmt ⟨.fieldAccess "self" "tx_type", [cgArm, jgArm]⟩])).get? 1 =
      some jgArm := by
  refine ⟨?_, ?_, ?_⟩
  · rfl
  · decide
  · decide

/-- C2 as amended: the insertion position differs between the two files.
In state.rs (`validate_tx` and `process_tx`) the new arm is inserted at
index 0 and the surviving pre-existing arms follow it unchanged in
relative order; in tx.rs's `verify` the new arm is appended at the END,
after the surviving pre-existing arms (which keep their relative
order).  In both files the placeholder (`Noop` path) arms are removed
first. -/
theorem claimC2_amended (pt : String → Option String) (tx_name : String)
    (fields : List TransactionField) (sTy : String) (u u' : String)
    (vs : List SynVariant) (spre : List Stmt) (scr : Scrut)
    (armsV : List MatchArm) (srest : List Stmt)
    (sv0 : Stmt) (scrV : Scrut) (armsVal : List MatchArm) (svrest : List Stmt)
    (sp0 : Stmt) (scrP : Scrut) (armsPro : List MatchArm) (sprest : List Stmt)
    (txd : SynFile)
    (hn : isIdent tx_name = true) (hfne : fields ≠ [])
    (hfnames : fields.all (fun g => isIdent g.name) = true)
    (hS : pt "String" = some sTy)
    (hspre : spre.all (fun s => !(isTxMatchStmt s)) = true)
    (hscr : scrutIsTxType ⟨scr, armsV⟩ = true)
    (hcnt : 1 ≤ variantCountOnDisk txd) :
    modify_tx_file pt tx_name fields
      (txProject u vs (spre ++ .matchStmt ⟨scr, armsV⟩ :: srest)) =
      .ok (txProject u
        ((vs ++ [(⟨tx_name, some (fields.map (fun g =>
            (⟨g.name, (pt g.field_type).getD sTy⟩ : SynField)))⟩ : SynVariant)]).filter
          (fun v => v.ident != "Noop"))
        (spre ++ .matchStmt ⟨scr,
          armsV.filter (fun a => !(isNoopPathArm a)) ++
          [(⟨.structPat ["TransactionType"] tx_name (fields.map (·.name)),
            .okUnit⟩ : MatchArm)]⟩ :: srest)) ∧
    modify_state_file tx_name fields
      (stateProject u' (sv0 :: .matchStmt ⟨scrV, armsVal⟩ :: svrest)
        (sp0 :: .matchStmt ⟨scrP, armsPro⟩ :: sprest)) (some txd) =
      .ok ⟨[.otherTop u', .implItem false
        [.fn ⟨"validate_tx", sv0 :: .matchStmt ⟨.fieldAccess "tx" "tx_type",
           (⟨.structPat ["TransactionType"] tx_name (fields.map (·.name)),
             .okUnit⟩ : MatchArm) ::
           armsVal.filter (fun a => !(isNoopPathArm a))⟩ :: svrest⟩,
         .fn ⟨"process_tx", sp0 :: .matchStmt ⟨.fieldAccess "tx" "tx_type",
           (⟨.structPat ["TransactionType"] tx_name (fields.map (·.name)),
             .okUnit⟩ : MatchArm) ::
           armsPro.filter (fun a => !(isNoopPathArm a))⟩ :: sprest⟩]]⟩ := by
  constructor
  · exact modify_tx_file_shape pt tx_name fields sTy u vs spre scr armsV srest
      hn hfne hfnames hS hspre hscr
  · rw [modify_state_file_shape tx_name fields u' sv0 scrV armsVal svrest
      sp0 scrP armsPro sprest txd hn hfne hfnames]
    simp [ge_iff_le, hcnt]

/-- Closed witness for the amended C2, at the spec's second-transaction
scenario: state.rs gets the JoinGame arm at index 0, tx.rs gets it
appended after CreateGame. -/
theorem claimC2_witness :
    modify_tx_file identTypeParser "JoinGame" [⟨"game_id", "u64"⟩] txSecond =
      .ok (txProject "u" [⟨"CreateGame", none⟩, ⟨"JoinGame", some [⟨"game_id", "u64"⟩]⟩]
        [.matchStmt ⟨.fieldAccess "self" "tx_type", [cgArm, jgArm]⟩]) ∧
    modify_state_file "JoinGame" [⟨"game_id", "u64"⟩] stSecond (some txSecond) =
      .ok ⟨[.otherTop "v", .implItem false
        [.fn ⟨"validate_tx", [.otherStmt "tx.verify()?",
           .matchStmt ⟨.fieldAccess "tx" "tx_type", [jgArm, cgArm]⟩]⟩,
         .fn ⟨"process_tx", [.otherStmt "self.validate_tx(tx)?",
           .matchStmt ⟨.fieldAccess "tx" "tx_type", [jgArm, cgArm]⟩]⟩]]⟩ := by
  have h := claimC2_amended identTypeParser "JoinGame" [⟨"game_id", "u64"⟩] "String"
    "u" "v" [⟨"CreateGame", none⟩] [] (.fieldAccess "self" "tx_type") [cgArm] []
    (.otherStmt "tx.verify()?") (.otherExpr "tx.tx_type") [cgArm] []
    (.otherStmt "self.validate_tx(tx)?") (.otherExpr "tx.tx_type") [cgArm] []
    txSecond
    (by decide) (by simp) (by decide) (by decide) (by decide) (by decide) (by decide)
  exact ⟨h.1.trans (by rfl), h.2.trans (by rfl)⟩

/-- Counterexample for C5: a tx.rs whose `verify` function does NOT
contain the expected match over `tx_type` is not rejected — the
operation succeeds with no error at all, silently leaving the function
unmodified while still extending the union (so the output no longer
compiles, rather than failing with NotFound/SchemaNotFound). -/
theorem claimC5_counterexample :
    modify_tx_file identTypeParser "JoinGame" [⟨"game_id", "u64"⟩]
      (txProject "u" [⟨"CreateGame", none⟩] [.otherStmt "Ok(())"]) =
      .ok (txProject "u"
        [⟨"CreateGame", none⟩, ⟨"JoinGame", some [⟨"game_id", "u64"⟩]⟩]
        [.otherStmt "Ok(())"]) := by
  rfl

/-- C5 as amended: a dispatch-named function whose body lacks the
expected match is not rejected and yields no error.  In tx.rs the
`verify` body is silently left unmodified while the union is still
extended; in state.rs a `validate_tx`/`process_tx` body whose second
statement is not a match is silently skipped (file returned unchanged);
and a body with fewer than two statements makes `modify_state_file`
PANIC with an out-of-bounds index (`stmts[1]`) instead of returning any
SchemaNotFound-style error. -/
theorem claimC5_amended (pt : String → Option String) (tx_name : String)
    (fields : List TransactionField) (sTy : String) (u u' u'' : String)
    (vs : List SynVariant) (vstmts : List Stmt)
    (mv mp : List Stmt) (txd : SynFile)
    (sv0 : Stmt) (c : String) (svrest : List Stmt)
    (sp0 : Stmt) (c2 : String) (sprest : List Stmt)
    (hn : isIdent tx_name = true) (hfne : fields ≠ [])
    (hfnames : fields.all (fun g => isIdent g.name) = true)
    (hS : pt "String" = some sTy)
    (hnomatch : vstmts.all (fun s => !(isTxMatchStmt s)) = true)
    (hshort : mv.length ≤ 1) :
    modify_tx_file pt tx_name fields (txProject u vs vstmts) =
      .ok (txProject u
        ((vs ++ [(⟨tx_name, some (fields.map (fun g =>
            (⟨g.name, (pt g.field_type).getD sTy⟩ : SynField)))⟩ : SynVariant)]).filter
          (fun v => v.ident != "Noop"))
        vstmts) ∧
    modify_state_file tx_name fields (stateProject u' mv mp) (some txd) =
      .error .indexPanic ∧
    modify_state_file tx_name fields
      (stateProject u'' (sv0 :: .otherStmt c :: svrest)
        (sp0 :: .otherStmt c2 :: sprest)) (some txd) =
      .ok (stateProject u'' (sv0 :: .otherStmt c :: svrest)
        (sp0 :: .otherStmt c2 :: sprest)) := by
  refine ⟨?_, ?_, ?_⟩
  · rw [modify_tx_file_txProject,
      build_variant_ok pt tx_name fields sTy hfne hn hfnames hS,
      update_verify_stmts_noMatch tx_name fields vstmts hnomatch]
  · rw [modify_state_file_stateProject,
      process_state_method_short tx_name fields (variantCountOnDisk txd)
        "validate_tx" mv (by decide) hshort]
  · rw [modify_state_file_stateProject,
      process_state_method_notMatch tx_name fields (variantCountOnDisk txd)
        "validate_tx" sv0 c svrest,
      process_state_method_notMatch tx_name fields (variantCountOnDisk txd)
        "process_tx" sp0 c2 sprest]
    rfl

/-- Closed witness for the amended C5: the three behaviors at concrete
inputs — silent success with the union extended, an out-of-bounds panic
on a one-statement body, and a silent skip on a non-match second
statement. -/
theorem claimC5_witness :
    modify_tx_file identTypeParser "JoinGame" [⟨"game_id", "u64"⟩]
      (txProject "u" [⟨"CreateGame", none⟩] [.otherStmt "Ok(())"]) =
      .ok (txProject "u"
        [⟨"CreateGame", none⟩, ⟨"JoinGame", some [⟨"game_id", "u64"⟩]⟩]
        [.otherStmt "Ok(())"]) ∧
    modify_state_file "JoinGame" [⟨"game_id", "u64"⟩]
      (stateProject "v" [.otherStmt "Ok(())"] [.otherStmt "Ok(())"])
      (some txSecond) = .error .indexPanic ∧
    modify_state_file "JoinGame" [⟨"game_id", "u64"⟩]
      (stateProject "w" [.otherStmt "a", .otherStmt "b"]
        [.otherStmt "c", .otherStmt "d"]) (some txSecond) =
      .ok (stateProject "w" [.otherStmt "a", .otherStmt "b"]
        [.otherStmt "c", .otherStmt "d"]) := by
  have h := claimC5_amended identTypeParser "JoinGame" [⟨"game_id", "u64"⟩]
    "String" "u" "v" "w" [⟨"CreateGame", none⟩] [.otherStmt "Ok(())"]
    [.otherStmt "Ok(())"] [.otherStmt "Ok(())"] txSecond
    (.otherStmt "a") "b" [] (.otherStmt "c") "d" []
    (by decide) (by simp) (by decide) (by decide) (by decide) (by decide)
  exact ⟨h.1.trans (by rfl), h.2.1, h.2.2.trans (by rfl)⟩

/-- Counterexample for C1: invoking `create_transaction` with a name that
already exists as a variant (CreateGame) does NOT fail with any
DuplicateVariant error — the run reports success and both files are
rewritten (the file system changes), the union ending up with two
CreateGame variants. -/
theorem claimC1_counterexample :
    create_transaction identTypeParser "CreateGame" [⟨"amount", "u64"⟩]
      ⟨true, some txSecond, some stSecond⟩ =
    (⟨true,
      some (txProject "u"
        [⟨"CreateGame", none⟩, ⟨"CreateGame", some [⟨"amount", "u64"⟩]⟩]
        [.matchStmt ⟨.fieldAccess "self" "tx_type",
          [cgArm, ⟨.structPat ["TransactionType"] "CreateGame" ["amount"],
            .okUnit⟩]⟩]),
      some (stateProject "v"
        [.otherStmt "tx.verify()?", .matchStmt ⟨.fieldAccess "tx" "tx_type",
          [⟨.structPat ["TransactionType"] "CreateGame" ["amount"], .okUnit⟩,
           cgArm]⟩]
        [.otherStmt "self.validate_tx(tx)?",
         .matchStmt ⟨.fieldAccess "tx" "tx_type",
          [⟨.structPat ["TransactionType"] "CreateGame" ["amount"], .okUnit⟩,
           cgArm]⟩])⟩,
     none) := by
  rfl

/-- C1 as amended: no implementation raises a DuplicateVariant error.
create_tx.rs performs no duplicate check at all: the extension succeeds
and a SECOND variant with the requested name is appended after the
surviving originals (the requested name already being among them), and
the files are written.  The alternative tree-based implementation in
test.rs skips pushing the duplicate variant — the union is left exactly
unchanged — but it likewise reports success (so its files are rewritten
too) rather than failing. -/
theorem claimC1_amended (pt : String → Option String) (tx_name : String)
    (fields : List TransactionField) (sTy : String) (u : String)
    (vs : List SynVariant) (spre : List Stmt) (scr : Scrut)
    (armsV : List MatchArm) (srest : List Stmt)
    (hn : isIdent tx_name = true) (hfne : fields ≠ [])
    (hfnames : fields.all (fun g => isIdent g.name) = true)
    (hS : pt "String" = some sTy)
    (hspre : spre.all (fun s => !(isTxMatchStmt s)) = true)
    (hscr : scrutIsTxType ⟨scr, armsV⟩ = true)
    (hdup : tx_name ∈ vs.map (·.ident)) (hnn : tx_name ≠ "Noop") :
    (∃ f', modify_tx_file pt tx_name fields
        (txProject u vs (spre ++ .matchStmt ⟨scr, armsV⟩ :: srest)) = .ok f' ∧
      enumNamesOf f' =
        (vs.filter (fun v => v.ident != "Noop")).map (·.ident) ++ [tx_name] ∧
      tx_name ∈ (vs.filter (fun v => v.ident != "Noop")).map (·.ident)) ∧
    (∀ (u2 : String) (vs2 : List SynVariant) (vstmts2 : List Stmt)
        (tfields : List (String × String)),
      tfields.all (fun p => isIdent p.1 && isIdent p.2) = true →
      vs2.any (fun w => w.ident == tx_name) = true →
      ∃ ast', add_transaction_variant tx_name tfields
          ⟨[.otherTop u2, .enumItem "Transaction" vs2,
            .implItem false [.fn ⟨"verify", vstmts2⟩]]⟩ = .ok ast' ∧
        getEnumVariants ast' "Transaction" = some vs2) := by
  constructor
  · obtain ⟨st', hst⟩ :=
      update_verify_stmts_isOk tx_name fields hn hfnames
        (spre ++ .matchStmt ⟨scr, armsV⟩ :: srest)
    refine ⟨txProject u
      ((vs ++ [(⟨tx_name, some (fields.map (fun g =>
          (⟨g.name, (pt g.field_type).getD sTy⟩ : SynField)))⟩ : SynVariant)]).filter
        (fun v => v.ident != "Noop")) st', ?_, ?_, ?_⟩
    · rw [modify_tx_file_txProject,
        build_variant_ok pt tx_name fields sTy hfne hn hfnames hS, hst]
    · rw [enumNamesOf_txProject]
      have hp : ((⟨tx_name, some (fields.map (fun g =>
          (⟨g.name, (pt g.field_type).getD sTy⟩ : SynField)))⟩ : SynVariant).ident
            != "Noop") = true := by
        simpa [bne_iff_ne] using hnn
      simp [List.filter_append, hp, List.filter_cons, List.map_append]
    · exact (mem_filteredVariantNames vs tx_name).mpr ⟨hdup, hnn⟩
  · intro u2 vs2 vstmts2 tfields htf hdup2
    obtain ⟨v0, hv0⟩ := test_build_variant_isOk tx_name tfields hn htf
    have hnames : (tfields.map (fun p =>
        (⟨p.1, p.2⟩ : TransactionField))).all (fun g => isIdent g.name) = true := by
      rw [List.all_eq_true]
      intro g hg
      obtain ⟨p, hp, hpg⟩ := List.mem_map.mp hg
      have hb := List.all_eq_true.mp htf p hp
      subst hpg
      simp only [Bool.and_eq_true] at hb
      exact hb.1
    obtain ⟨m', hm'⟩ := test_process_verify_isOk tx_name
      (tfields.map (fun p => ⟨p.1, p.2⟩)) hn hnames ⟨"verify", vstmts2⟩
    refine ⟨⟨[.otherTop u2, .enumItem "Transaction" vs2,
      .implItem false [.fn m']]⟩, ?_, ?_⟩
    · simp [add_transaction_variant, mapFirstEnum, mapFirstImpl, mapExcept,
        hv0, hdup2, hm', bind, Except.bind]
    · simp [getEnumVariants, List.findSome?]

/-- Closed witness for the amended C1: at the duplicate name CreateGame,
create_tx.rs appends a second CreateGame variant while test.rs leaves
the union untouched, and neither errors. -/
theorem claimC1_witness :
    (∃ f', modify_tx_file identTypeParser "CreateGame" [⟨"amount", "u64"⟩]
        txSecond = .ok f' ∧
      enumNamesOf f' =
        (([⟨"CreateGame", none⟩] : List SynVariant).filter
          (fun v => v.ident != "Noop")).map (·.ident) ++ ["CreateGame"] ∧
      "CreateGame" ∈ (([⟨"CreateGame", none⟩] : List SynVariant).filter
        (fun v => v.ident != "Noop")).map (·.ident)) ∧
    (∃ ast', add_transaction_variant "CreateGame" [("amount", "u64")]
        ⟨[.otherTop "w", .enumItem "Transaction" [⟨"CreateGame", none⟩],
          .implItem false [.fn ⟨"verify", []⟩]]⟩ = .ok ast' ∧
      getEnumVariants ast' "Transaction" = some [⟨"CreateGame", none⟩]) := by
  have h := claimC1_amended identTypeParser "CreateGame" [⟨"amount", "u64"⟩]
    "String" "u" [⟨"CreateGame", none⟩] [] (.fieldAccess "self" "tx_type")
    [cgArm] []
    (by decide) (by simp) (by decide) (by decide) (by decide) (by decide)
    (by simp) (by decide)
  exact ⟨h.1, h.2 "w" [⟨"CreateGame", none⟩] [] [("amount", "u64")]
    (by decide) (by decide)⟩

/-- The placeholder arm `TransactionType::Noop => Ok(())`. -/
def noopArm : MatchArm := ⟨.path ["TransactionType"] "Noop", .okUnit⟩

/-- A freshly initialized tx.rs tree: union `{ Noop }` and a verify
match holding only the placeholder arm. -/
def txFreshNoop : SynFile :=
  txProject "u" [⟨"Noop", none⟩]
    [.matchStmt ⟨.fieldAccess "self" "tx_type", [noopArm]⟩]

/-- Counterexample for C4: extending the placeholder-only union with the
name `Noop` itself (and one field) succeeds; the Noop variant is indeed
absent from the union afterwards (the union ends EMPTY), but a
Noop-named arm is present in the dispatch function — the new struct arm
is pushed after the placeholder path arms were removed, so a
placeholder-named arm is NOT absent from every dispatch function. -/
theorem claimC4_counterexample :
    modify_tx_file identTypeParser "Noop" [⟨"data", "u64"⟩] txFreshNoop =
      .ok (txProject "u" []
        [.matchStmt ⟨.fieldAccess "self" "tx_type",
          [⟨.structPat ["TransactionType"] "Noop" ["data"], .okUnit⟩]⟩]) ∧
    armNames (verifyMatchArms (txProject "u" []
      [.matchStmt ⟨.fieldAccess "self" "tx_type",
        [⟨.structPat ["TransactionType"] "Noop" ["data"], .okUnit⟩]⟩])) =
      ["Noop"] ∧
    enumNamesOf (txProject "u" []
      [.matchStmt ⟨.fieldAccess "self" "tx_type",
        [⟨.structPat ["TransactionType"] "Noop" ["data"], .okUnit⟩]⟩]) = [] := by
  refine ⟨?_, ?_, ?_⟩
  · rfl
  · decide
  · decide

/-- C4 as amended: provided the requested name is NOT the placeholder
name `Noop` itself, extending a project whose union contains only the
placeholder removes the Noop variant from the union and every Noop arm
from the dispatch functions of both files.  (Requesting the name `Noop`
instead makes the union end up empty while a Noop arm is re-inserted at
every dispatch site, as the counterexample shows.) -/
theorem claimC4_amended (pt : String → Option String) (tx_name : String)
    (fields : List TransactionField) (sTy : String) (u u' : String)
    (vs : List SynVariant) (spre : List Stmt) (scr : Scrut)
    (armsV : List MatchArm) (srest : List Stmt)
    (sv0 : Stmt) (scrV : Scrut) (armsVal : List MatchArm) (svrest : List Stmt)
    (sp0 : Stmt) (scrP : Scrut) (armsPro : List MatchArm) (sprest : List Stmt)
    (huv : vs.map (·.ident) = ["Noop"])
    (hn : isIdent tx_name = true) (hnn : tx_name ≠ "Noop")
    (hfne : fields ≠ [])
    (hfnames : fields.all (fun g => isIdent g.name) = true)
    (hS : pt "String" = some sTy)
    (hspre : spre.all (fun s => !(isTxMatchStmt s)) = true)
    (hscr : scrutIsTxType ⟨scr, armsV⟩ = true)
    (hNoopV : ∀ a ∈ armsV, patName a.pat = some "Noop" → isNoopPathArm a = true)
    (hNoopVal : ∀ a ∈ armsVal, patName a.pat = some "Noop" → isNoopPathArm a = true)
    (hNoopPro : ∀ a ∈ armsPro, patName a.pat = some "Noop" → isNoopPathArm a = true) :
    ∃ txF stF,
      modify_tx_file pt tx_name fields
        (txProject u vs (spre ++ .matchStmt ⟨scr, armsV⟩ :: srest)) = .ok txF ∧
      modify_state_file tx_name fields
        (stateProject u' (sv0 :: .matchStmt ⟨scrV, armsVal⟩ :: svrest)
          (sp0 :: .matchStmt ⟨scrP, armsPro⟩ :: sprest))
        (some (txProject u vs (spre ++ .matchStmt ⟨scr, armsV⟩ :: srest))) =
        .ok stF ∧
      "Noop" ∉ enumNamesOf txF ∧
      "Noop" ∉ armNames (verifyMatchArms txF) ∧
      "Noop" ∉ armNames (stateMethodArms stF "validate_tx") ∧
      "Noop" ∉ armNames (stateMethodArms stF "process_tx") := by
  have hlen : vs.length = 1 := by
    have := congrArg List.length huv
    simpa using this
  have hcnt : variantCountOnDisk
      (txProject u vs (spre ++ .matchStmt ⟨scr, armsV⟩ :: srest)) ≥ 1 := by
    rw [variantCountOnDisk_txProject, hlen]
  refine ⟨_, _,
    modify_tx_file_shape pt tx_name fields sTy u vs spre scr armsV srest
      hn hfne hfnames hS hspre hscr,
    modify_state_file_shape tx_name fields u' sv0 scrV armsVal svrest
      sp0 scrP armsPro sprest _ hn hfne hfnames, ?_, ?_, ?_, ?_⟩
  · rw [enumNamesOf_txProject]
    intro hmem
    exact ((mem_filteredVariantNames _ "Noop").mp hmem).2 rfl
  · have hscr2 : scrutIsTxType ⟨scr,
        armsV.filter (fun a => !(isNoopPathArm a)) ++
        [(⟨.structPat ["TransactionType"] tx_name (fields.map (·.name)),
          .okUnit⟩ : MatchArm)]⟩ = true := hscr
    rw [verifyMatchArms_txProject u _ spre _ srest hspre hscr2, armNames_append]
    intro hmem
    rcases List.mem_append.mp hmem with hm | hm
    · exact ((mem_armNames_filterNoop armsV "Noop" hNoopV).mp hm).2 rfl
    · have heq : "Noop" = tx_name := by simpa [armNames, patName] using hm
      exact hnn heq.symm
  · rw [stateMethodArms_of_stmts _ "validate_tx" sv0 _ svrest
      (methodStmts_pair_fst u' _ _ "validate_tx" (by rfl))]
    rw [if_pos hcnt]
    intro hmem
    have hmem' : "Noop" = tx_name ∨
        "Noop" ∈ armNames (armsVal.filter (fun a => !(isNoopPathArm a))) :=
      List.mem_cons.mp (show "Noop" ∈ tx_name ::
        armNames (armsVal.filter (fun a => !(isNoopPathArm a))) from hmem)
    rcases hmem' with hm | hm
    · exact hnn hm.symm
    · exact ((mem_armNames_filterNoop armsVal "Noop" hNoopVal).mp hm).2 rfl
  · rw [stateMethodArms_of_stmts _ "process_tx" sp0 _ sprest
      (methodStmts_pair_snd u' _ _ "process_tx" (by rfl) (by rfl))]
    rw [if_pos hcnt]
    intro hmem
    have hmem' : "Noop" = tx_name ∨
        "Noop" ∈ armNames (armsPro.filter (fun a => !(isNoopPathArm a))) :=
      List.mem_cons.mp (show "Noop" ∈ tx_name ::
        armNames (armsPro.filter (fun a => !(isNoopPathArm a))) from hmem)
    rcases hmem' with hm | hm
    · exact hnn hm.symm
    · exact ((mem_armNames_filterNoop armsPro "Noop" hNoopPro).mp hm).2 rfl

/-- Closed witness for the amended C4: the spec's first-transaction
scenario with a field (`JoinGame { game_id }` onto `{ Noop }`): the
placeholder variant and its arms are gone everywhere. -/
theorem claimC4_witness :
    ∃ txF stF,
      modify_tx_file identTypeParser "JoinGame" [⟨"game_id", "u64"⟩]
        txFreshNoop = .ok txF ∧
      modify_state_file "JoinGame" [⟨"game_id", "u64"⟩]
        (stateProject "v"
          [.otherStmt "tx.verify()?",
           .matchStmt ⟨.otherExpr "tx.tx_type", [noopArm]⟩]
          [.otherStmt "self.validate_tx(tx)?",
           .matchStmt ⟨.otherExpr "tx.tx_type", [noopArm]⟩])
        (some txFreshNoop) = .ok stF ∧
      "Noop" ∉ enumNamesOf txF ∧
      "Noop" ∉ armNames (verifyMatchArms txF) ∧
      "Noop" ∉ armNames (stateMethodArms stF "validate_tx") ∧
      "Noop" ∉ armNames (stateMethodArms stF "process_tx") := by
  exact claimC4_amended identTypeParser "JoinGame" [⟨"game_id", "u64"⟩]
    "String" "u" "v" [⟨"Noop", none⟩] [] (.fieldAccess "self" "tx_type")
    [noopArm] []
    (.otherStmt "tx.verify()?") (.otherExpr "tx.tx_type") [noopArm] []
    (.otherStmt "self.validate_tx(tx)?") (.otherExpr "tx.tx_type") [noopArm] []
    (by decide) (by decide) (by decide) (by simp) (by decide) (by decide)
    (by decide) (by decide)
    (by intro a ha hp; simp at ha; subst ha; rfl)
    (by intro a ha hp; simp at ha; subst ha; rfl)
    (by intro a ha hp; simp at ha; subst ha; rfl)

/-- Counterexample for C3: starting from the exhaustive state with union
`{ CreateGame }`, extending with the name `Noop` (and one field)
succeeds, but afterwards the verify match covers `{ CreateGame, Noop }`
while the union is still `{ CreateGame }` — the new variant is filtered
back out of the union by the unconditional Noop removal while its arm is
still pushed, so the covered-name set no longer equals the variant-name
set. -/
theorem claimC3_counterexample :
    modify_tx_file identTypeParser "Noop" [⟨"data", "u64"⟩] txSecond =
      .ok (txProject "u" [⟨"CreateGame", none⟩]
        [.matchStmt ⟨.fieldAccess "self" "tx_type",
          [cgArm, ⟨.structPat ["TransactionType"] "Noop" ["data"], .okUnit⟩]⟩]) ∧
    armNames (verifyMatchArms (txProject "u" [⟨"CreateGame", none⟩]
      [.matchStmt ⟨.fieldAccess "self" "tx_type",
        [cgArm, ⟨.structPat ["TransactionType"] "Noop" ["data"], .okUnit⟩]⟩])) =
      ["CreateGame", "Noop"] ∧
    enumNamesOf (txProject "u" [⟨"CreateGame", none⟩]
      [.matchStmt ⟨.fieldAccess "self" "tx_type",
        [cgArm, ⟨.structPat ["TransactionType"] "Noop" ["data"], .okUnit⟩]⟩]) =
      ["CreateGame"] := by
  refine ⟨?_, ?_, ?_⟩
  · rfl
  · decide
  · decide

/-- C3 as amended: provided the requested name is NOT the placeholder
name `Noop`, a successful extension of initializer-shaped files whose
dispatch matches are exhaustive over the union (all Noop arms being path
patterns) leaves every dispatch function in both files covering exactly
the extended union's variant-name set.  (Requesting the name `Noop`
breaks the equality, as the counterexample shows.) -/
theorem claimC3_amended (pt : String → Option String) (tx_name : String)
    (fields : List TransactionField) (sTy : String) (u u' : String)
    (vs : List SynVariant) (spre : List Stmt) (scr : Scrut)
    (armsV : List MatchArm) (srest : List Stmt)
    (sv0 : Stmt) (scrV : Scrut) (armsVal : List MatchArm) (svrest : List Stmt)
    (sp0 : Stmt) (scrP : Scrut) (armsPro : List MatchArm) (sprest : List Stmt)
    (hn : isIdent tx_name = true) (hnn : tx_name ≠ "Noop")
    (hfne : fields ≠ [])
    (hfnames : fields.all (fun g => isIdent g.name) = true)
    (hS : pt "String" = some sTy)
    (hspre : spre.all (fun s => !(isTxMatchStmt s)) = true)
    (hscr : scrutIsTxType ⟨scr, armsV⟩ = true)
    (hNoopV : ∀ a ∈ armsV, patName a.pat = some "Noop" → isNoopPathArm a = true)
    (hNoopVal : ∀ a ∈ armsVal, patName a.pat = some "Noop" → isNoopPathArm a = true)
    (hNoopPro : ∀ a ∈ armsPro, patName a.pat = some "Noop" → isNoopPathArm a = true)
    (hexV : ∀ x, x ∈ armNames armsV ↔ x ∈ vs.map (·.ident))
    (hexVal : ∀ x, x ∈ armNames armsVal ↔ x ∈ vs.map (·.ident))
    (hexPro : ∀ x, x ∈ armNames armsPro ↔ x ∈ vs.map (·.ident)) :
    ∃ txF stF,
      modify_tx_file pt tx_name fields
        (txProject u vs (spre ++ .matchStmt ⟨scr, armsV⟩ :: srest)) = .ok txF ∧
      modify_state_file tx_name fields
        (stateProject u' (sv0 :: .matchStmt ⟨scrV, armsVal⟩ :: svrest)
          (sp0 :: .matchStmt ⟨scrP, armsPro⟩ :: sprest))
        (some (txProject u vs (spre ++ .matchStmt ⟨scr, armsV⟩ :: srest))) =
        .ok stF ∧
      (∀ x, x ∈ armNames (verifyMatchArms txF) ↔ x ∈ enumNamesOf txF) ∧
      (∀ x, x ∈ armNames (stateMethodArms stF "validate_tx") ↔
        x ∈ enumNamesOf txF) ∧
      (∀ x, x ∈ armNames (stateMethodArms stF "process_tx") ↔
        x ∈ enumNamesOf txF) := by
  have henum : ∀ x, x ∈ enumNamesOf (txProject u
      ((vs ++ [(⟨tx_name, some (fields.map (fun g =>
          (⟨g.name, (pt g.field_type).getD sTy⟩ : SynField)))⟩ : SynVariant)]).filter
        (fun v => v.ident != "Noop"))
      (spre ++ .matchStmt ⟨scr,
        armsV.filter (fun a => !(isNoopPathArm a)) ++
        [(⟨.structPat ["TransactionType"] tx_name (fields.map (·.name)),
          .okUnit⟩ : MatchArm)]⟩ :: srest)) ↔
      ((x ∈ vs.map (·.ident) ∧ x ≠ "Noop") ∨ x = tx_name) := by
    intro x
    rw [enumNamesOf_txProject, mem_filteredVariantNames]
    simp only [List.map_append, List.map_cons, List.map_nil, List.mem_append,
      List.mem_singleton]
    constructor
    · rintro ⟨hm | hm, hne⟩
      · exact Or.inl ⟨hm, hne⟩
      · exact Or.inr hm
    · rintro (⟨hm, hne⟩ | rfl)
      · exact ⟨Or.inl hm, hne⟩
      · exact ⟨Or.inr rfl, hnn⟩
  have harm : ∀ (arms : List MatchArm),
      (∀ a ∈ arms, patName a.pat = some "Noop" → isNoopPathArm a = true) →
      ∀ x, x ∈ armNames (arms.filter (fun a => !(isNoopPathArm a)) ++
        [(⟨.structPat ["TransactionType"] tx_name (fields.map (·.name)),
          .okUnit⟩ : MatchArm)]) ↔
        ((x ∈ armNames arms ∧ x ≠ "Noop") ∨ x = tx_name) := by
    intro arms hNp x
    rw [armNames_append, List.mem_append, mem_armNames_filterNoop arms x hNp]
    have hsingle : armNames [(⟨.structPat ["TransactionType"] tx_name
        (fields.map (·.name)), .okUnit⟩ : MatchArm)] = [tx_name] := rfl
    rw [hsingle]
    simp
  have hstate : ∀ (arms : List MatchArm),
      (∀ a ∈ arms, patName a.pat = some "Noop" → isNoopPathArm a = true) →
      (∀ x, x ∈ armNames arms ↔ x ∈ vs.map (·.ident)) →
      ∀ x, x ∈ armNames ((⟨.structPat ["TransactionType"] tx_name
          (fields.map (·.name)), .okUnit⟩ : MatchArm) ::
        (if vs.length ≥ 1 then arms.filter (fun a => !(isNoopPathArm a))
         else arms)) ↔
        ((x ∈ vs.map (·.ident) ∧ x ≠ "Noop") ∨ x = tx_name) := by
    intro arms hNp hex x
    by_cases hvs : vs.length ≥ 1
    · rw [if_pos hvs]
      have hcons : armNames ((⟨.structPat ["TransactionType"] tx_name
          (fields.map (·.name)), .okUnit⟩ : MatchArm) ::
          arms.filter (fun a => !(isNoopPathArm a))) =
          tx_name :: armNames (arms.filter (fun a => !(isNoopPathArm a))) := rfl
      rw [hcons, List.mem_cons, mem_armNames_filterNoop arms x hNp, hex x]
      tauto
    · rw [if_neg hvs]
      have hvs0 : vs = [] := List.length_eq_zero.mp (by omega)
      have hcons : armNames ((⟨.structPat ["TransactionType"] tx_name
          (fields.map (·.name)), .okUnit⟩ : MatchArm) :: arms) =
          tx_name :: armNames arms := rfl
      rw [hcons, List.mem_cons, hex x, hvs0]
      simp
  refine ⟨_, _,
    modify_tx_file_shape pt tx_name fields sTy u vs spre scr armsV srest
      hn hfne hfnames hS hspre hscr,
    modify_state_file_shape tx_name fields u' sv0 scrV armsVal svrest
      sp0 scrP armsPro sprest _ hn hfne hfnames, ?_, ?_, ?_⟩
  · have hscr2 : scrutIsTxType ⟨scr,
        armsV.filter (fun a => !(isNoopPathArm a)) ++
        [(⟨.structPat ["TransactionType"] tx_name (fields.map (·.name)),
          .okUnit⟩ : MatchArm)]⟩ = true := hscr
    intro x
    rw [verifyMatchArms_txProject u _ spre _ srest hspre hscr2,
      harm armsV hNoopV x, henum x, hexV x]
  · intro x
    rw [stateMethodArms_of_stmts _ "validate_tx" sv0 _ svrest
      (methodStmts_pair_fst u' _ _ "validate_tx" (by rfl)),
      variantCountOnDisk_txProject,
      hstate armsVal hNoopVal hexVal x, henum x]
  · intro x
    rw [stateMethodArms_of_stmts _ "process_tx" sp0 _ sprest
      (methodStmts_pair_snd u' _ _ "process_tx" (by rfl) (by rfl)),
      variantCountOnDisk_txProject,
      hstate armsPro hNoopPro hexPro x, henum x]

/-- Closed witness for the amended C3: the spec's second-transaction
scenario — after extending `{ CreateGame }` with `JoinGame { game_id }`,
every dispatch function in both files covers exactly the new union's
variant-name set. -/
theorem claimC3_witness :
    ∃ txF stF,
      modify_tx_file identTypeParser "JoinGame" [⟨"game_id", "u64"⟩]
        txSecond = .ok txF ∧
      modify_state_file "JoinGame" [⟨"game_id", "u64"⟩] stSecond
        (some txSecond) = .ok stF ∧
      (∀ x, x ∈ armNames (verifyMatchArms txF) ↔ x ∈ enumNamesOf txF) ∧
      (∀ x, x ∈ armNames (stateMethodArms stF "validate_tx") ↔
        x ∈ enumNamesOf txF) ∧
      (∀ x, x ∈ armNames (stateMethodArms stF "process_tx") ↔
        x ∈ enumNamesOf txF) := by
  exact claimC3_amended identTypeParser "JoinGame" [⟨"game_id", "u64"⟩]
    "String" "u" "v" [⟨"CreateGame", none⟩] [] (.fieldAccess "self" "tx_type")
    [cgArm] []
    (.otherStmt "tx.verify()?") (.otherExpr "tx.tx_type") [cgArm] []
    (.otherStmt "self.validate_tx(tx)?") (.otherExpr "tx.tx_type") [cgArm] []
    (by decide) (by decide) (by simp) (by decide) (by decide) (by decide)
    (by decide)
    (by intro a ha hp; simp at ha; subst ha; simp [patName, cgArm] at hp)
    (by intro a ha hp; simp at ha; subst ha; simp [patName, cgArm] at hp)
    (by intro a ha hp; simp at ha; subst ha; simp [patName, cgArm] at hp)
    (by intro x; exact Iff.rfl)
    (by intro x; exact Iff.rfl)
    (by intro x; exact Iff.rfl)

end Shard
